import Mathlib

/-!
Verification of the challenge engine and rewards ledger of a personal-finance
backend. The definitions below are a shallow embedding of the TypeScript
sources `src/modules/challenges/ChallengesService.ts`,
`src/modules/rewards/RewardsService.ts` and the mock database provider
`src/modules/database/PostgreSQLProvider.ts` (the configured default).

Conventions of the embedding:
* TypeScript string enums (challenge type, status, transaction type) are kept
  as `String`, exactly as in the source (`'savings'`, `'active'`, ...), so
  that unvalidated values coming from the AI parser propagate as they do in
  the code.
* `Date` values are integers (milliseconds since the epoch); `new Date()` at
  an evaluation instant is an explicit `now : Int` parameter.
* JS `x || 0` on an optional number is `Option.getD 0` (`0` is falsy in JS
  but `0 || 0 = 0`, so the two agree); `c.rewardPoints || 50` is modelled by
  `jsOrFifty`, which maps both `none` and `some 0` to `50`.
* The mock database stores records in a `Map`; `find` returns the stored
  records, `update` *replaces* the stored record with a merged copy (it does
  not mutate the old object) and `insert` overwrites any record with the same
  id (`Map.set`). Hence a list previously returned by `find` is unaffected by
  a later `update`, which the model reflects by value semantics.
-/

namespace FinBack

/-- A transaction record as consumed by the challenge engine
(`{id, userId, amount, type, category, description, createdAt}`). -/
structure Transaction where
  id : String
  userId : String
  type : String
  amount : Int
  category : String
  description : String
  createdAt : Int
deriving DecidableEq, Repr

/-- `ChallengeRules` from `challenges/types.ts`: all fields optional. -/
structure ChallengeRules where
  targetAmount : Option Int := none
  category : Option String := none
  streakDays : Option Int := none
  percentage : Option Int := none
  goalId : Option String := none
deriving DecidableEq, Repr

/-- `ChallengeProgress` from `challenges/types.ts`. -/
structure ChallengeProgress where
  currentAmount : Option Int := none
  currentStreak : Option Int := none
  lastCheckedAt : Option Int := none
  completedAt : Option Int := none
deriving DecidableEq, Repr

/-- A challenge record. `type` is one of `"savings"`, `"spending_limit"`,
`"category_ban"`, `"streak"`, `"goal_contribution"`, `"income_percentage"`;
`status` is one of `"active"`, `"completed"`, `"failed"`, `"expired"`.
Fields of the source irrelevant to the verified logic (title, description,
difficulty, frequency, aiGenerated, aiContext, createdAt, updatedAt) are
omitted. -/
structure Challenge where
  id : String
  userId : String
  type : String
  status : String
  rules : ChallengeRules
  progress : ChallengeProgress
  rewardPoints : Int
  startDate : Int
  endDate : Int
deriving DecidableEq, Repr

/-- A savings goal as read by the engine (`savings_goals` collection). -/
structure Goal where
  id : String
  userId : String
  currentAmount : Int
deriving DecidableEq, Repr

/-- One `rewardsService.addPoints` invocation made by the challenge engine.
The challenge id is the `metadata.challengeId` the source attaches. -/
structure Award where
  userId : String
  points : Int
  challengeId : String
deriving DecidableEq, Repr

/-- The persistent state visible to the challenge engine: the `challenges`,
`transactions` and `savings_goals` collections of the mock database, plus the
log of points awards issued through `RewardsService.addPoints`. -/
structure St where
  challenges : List Challenge
  transactions : List Transaction
  goals : List Goal
  awards : List Award
deriving DecidableEq, Repr

/-! ### The progress evaluator (`calculateProgress` and friends) -/

/-- `calculateStreakDays(startDate)`: `Math.floor(Math.abs(now - start) / 86400000)`. -/
def calculateStreakDays (startDate now : Int) : Int :=
  ((now - startDate).natAbs / 86400000 : Nat)

/-- `reduce((sum, t) => sum + t.amount, 0)`. -/
def sumAmounts (ts : List Transaction) : Int :=
  ts.foldl (fun s t => s + t.amount) 0

/-- `calculateProgress(challenge, transactions, goals)` from
`ChallengesService.ts` (lines 409–465); `now` is the `new Date()` taken for
`lastCheckedAt` and for `calculateStreakDays`. -/
def calculateProgress (challenge : Challenge) (transactions : List Transaction)
    (goals : List Goal) (now : Int) : ChallengeProgress :=
  let progress := { challenge.progress with lastCheckedAt := some now }
  let relevantTransactions :=
    transactions.filter (fun t => decide (challenge.startDate ≤ t.createdAt))
  if challenge.type = "savings" then
    let savings := sumAmounts (relevantTransactions.filter (fun t => decide (t.type = "income")))
    { progress with currentAmount := some savings }
  else if challenge.type = "spending_limit" then
    let spent := sumAmounts (relevantTransactions.filter (fun t => decide (t.type = "expense")))
    { progress with currentAmount := some spent }
  else if challenge.type = "category_ban" ∨ challenge.type = "streak" then
    let categorySpending := relevantTransactions.filter
      (fun t => decide (t.type = "expense" ∧ challenge.rules.category = some t.category))
    let streak := if categorySpending.isEmpty then calculateStreakDays challenge.startDate now else 0
    { progress with currentStreak := some streak }
  else if challenge.type = "goal_contribution" then
    match goals.find? (fun g => decide (challenge.rules.goalId = some g.id)) with
    | some goal => { progress with currentAmount := some goal.currentAmount }
    | none => progress
  else if challenge.type = "income_percentage" then
    let savedAmount := sumAmounts (relevantTransactions.filter (fun t => decide (t.type = "income")))
    { progress with currentAmount := some savedAmount }
  else progress

/-- `isChallengeCompleted(challenge, progress)` (lines 479–501); the `new
Date()` of the `spending_limit` branch is `now`. -/
def isChallengeCompleted (challenge : Challenge) (progress : ChallengeProgress)
    (now : Int) : Bool :=
  if challenge.type = "savings" then
    decide (challenge.rules.targetAmount.getD 0 ≤ progress.currentAmount.getD 0)
  else if challenge.type = "spending_limit" then
    decide (challenge.endDate ≤ now ∧ progress.currentAmount.getD 0 ≤ challenge.rules.targetAmount.getD 0)
  else if challenge.type = "category_ban" ∨ challenge.type = "streak" then
    decide (challenge.rules.streakDays.getD 0 ≤ progress.currentStreak.getD 0)
  else if challenge.type = "goal_contribution" then
    decide (challenge.rules.targetAmount.getD 0 ≤ progress.currentAmount.getD 0)
  else if challenge.type = "income_percentage" then
    decide (challenge.rules.targetAmount.getD 0 ≤ progress.currentAmount.getD 0)
  else false

/-- `isChallengeFailed(challenge, progress)` (lines 506–527). -/
def isChallengeFailed (challenge : Challenge) (progress : ChallengeProgress)
    (now : Int) : Bool :=
  if challenge.endDate ≤ now then
    ! isChallengeCompleted challenge progress now
  else if challenge.type = "spending_limit" then
    decide (challenge.rules.targetAmount.getD 0 < progress.currentAmount.getD 0)
  else if challenge.type = "category_ban" then
    decide (progress.currentStreak.getD 0 = 0 ∧ challenge.startDate < now)
  else false

/-! ### Database-level operations -/

/-- `UpdateChallengeDto`: the patch accepted by `updateChallenge`. -/
structure UpdateChallengeDto where
  status : Option String := none
  progress : Option ChallengeProgress := none
deriving DecidableEq, Repr

/-- `{...challenge, ...data}`: merge a patch into a record. -/
def applyUpdate (c : Challenge) (d : UpdateChallengeDto) : Challenge :=
  { c with status := d.status.getD c.status, progress := d.progress.getD c.progress }

/-- `db.update('challenges', id, {...existing, ...data})`: replace the stored
record with the merged copy. In the evaluation flows the id always exists, so
the not-found throw of the source is unreachable here. -/
def dbUpdate (cs : List Challenge) (id : String) (d : UpdateChallengeDto) : List Challenge :=
  cs.map (fun c => if c.id = id then applyUpdate c d else c)

/-- `db.insert('challenges', c)` on the mock provider: `Map.set`, i.e. replace
the record with the same id if present, else append. -/
def dbInsert (cs : List Challenge) (c : Challenge) : List Challenge :=
  if cs.any (fun x => decide (x.id = c.id)) then
    cs.map (fun x => if x.id = c.id then c else x)
  else cs ++ [c]

/-- Lookup of a challenge record by id (`db.findOne('challenges', id)`). -/
def findC (cs : List Challenge) (id : String) : Option Challenge :=
  cs.find? (fun c => decide (c.id = id))

/-- Status of the stored record with the given id, if any. -/
def statusOf (st : St) (id : String) : Option String :=
  (findC st.challenges id).map (fun c => c.status)

/-- Number of points awards issued for a given challenge id. -/
def awardsFor (st : St) (id : String) : Nat :=
  (st.awards.filter (fun a => decide (a.challengeId = id))).length

/-- `updateChallenge(id, data)` (lines 355–375), the public update operation:
merge the patch into the stored record. (The source throws when the id is
absent; here the state is returned unchanged in that case, which no claim
depends on.) -/
def updateChallenge (st : St) (id : String) (data : UpdateChallengeDto) : St :=
  { st with challenges := dbUpdate st.challenges id data }

/-- The expiry step of `getActiveChallenges` (lines 333–339): a fetched
challenge past its end date is stamped `expired` in the store. -/
def expireStep (now : Int) (acc : St) (c : Challenge) : St :=
  if c.endDate < now then
    { acc with challenges := dbUpdate acc.challenges c.id { status := some "expired" } }
  else acc

/-- `getActiveChallenges(userId)` (lines 324–342). `find` returns the stored
records; the subsequent `updateChallenge` calls replace store entries without
mutating the returned copies, so the final `filter(c => c.status === ACTIVE)`
runs over the *fetch-time* copies and keeps all of them. -/
def getActiveChallenges (st : St) (userId : String) (now : Int) : St × List Challenge :=
  let challenges := st.challenges.filter
    (fun c => decide (c.userId = userId ∧ c.status = "active"))
  (challenges.foldl (expireStep now) st,
   challenges.filter (fun c => decide (c.status = "active")))

/-- `completeChallenge(challengeId, progress)` (lines 532–562): re-read the
record, stamp `completedAt`, persist status `completed`, award the points. -/
def completeChallenge (st : St) (challengeId : String) (progress : ChallengeProgress)
    (now : Int) : St :=
  match findC st.challenges challengeId with
  | none => st
  | some challenge =>
    let progress := { progress with completedAt := some now }
    let cs := dbUpdate st.challenges challengeId { status := some "completed", progress := some progress }
    { st with challenges := cs,
              awards := st.awards ++ [⟨challenge.userId, challenge.rewardPoints, challengeId⟩] }

/-- `failChallenge(challengeId, progress)` (lines 567–575). -/
def failChallenge (st : St) (challengeId : String) (progress : ChallengeProgress) : St :=
  { st with challenges :=
      dbUpdate st.challenges challengeId { status := some "failed", progress := some progress } }

/-- The body of the `checkProgress` loop (lines 388–401) for one challenge. -/
def checkStep (transactions : List Transaction) (goals : List Goal) (now : Int)
    (stAcc : St) (challenge : Challenge) : St :=
  let progress := calculateProgress challenge transactions goals now
  if isChallengeCompleted challenge progress now then
    completeChallenge stAcc challenge.id progress now
  else if isChallengeFailed challenge progress now then
    failChallenge stAcc challenge.id progress
  else
    updateChallenge stAcc challenge.id { progress := some progress }

/-- `checkProgress(userId)` (lines 380–404): the batch evaluation pass. The
list of changed challenges the source returns is not modelled (no claim
mentions it); the resulting store and award log are. -/
def checkProgress (st : St) (userId : String) (now : Int) : St :=
  let r := getActiveChallenges st userId now
  let transactions := r.1.transactions.filter (fun t => decide (t.userId = userId))
  let goals := r.1.goals.filter (fun g => decide (g.userId = userId))
  r.2.foldl (checkStep transactions goals now) r.1

/-! ### The incremental per-transaction path -/

/-- JS `!category` for `category = challenge.rules.category`: true when the
field is absent (`undefined`) or the empty string (both falsy). -/
def jsFalsyCategory : Option String → Bool
  | none => true
  | some s => decide (s = "")

/-- JS `description.toLowerCase().includes('ahorro')`. -/
def descIncludesAhorro (s : String) : Bool :=
  decide (2 ≤ (s.toLower.splitOn "ahorro").length)

/-- The `switch (challenge.type)` of `updateChallengeProgressWithTransaction`
(lines 681–771), computing the locals `(updated, shouldUpdate, shouldComplete)`
of the source. Note there is no `income_percentage` case in the source; it
falls through with no update. -/
def incrDecision (challenge : Challenge) (transaction : Transaction) (now : Int) :
    Challenge × Bool × Bool :=
  if challenge.type = "savings" then
    if transaction.type = "income" then
      let currentAmount := challenge.progress.currentAmount.getD 0
      let newAmount := currentAmount + (transaction.amount.natAbs : Int)
      let upd := { challenge with progress :=
        { challenge.progress with currentAmount := some newAmount, lastCheckedAt := some now } }
      (upd, true, decide (challenge.rules.targetAmount.getD 0 ≤ newAmount))
    else (challenge, false, false)
  else if challenge.type = "spending_limit" then
    if transaction.type = "expense" ∧
        (jsFalsyCategory challenge.rules.category = true ∨
          challenge.rules.category = some transaction.category) then
      let currentSpent := challenge.progress.currentAmount.getD 0
      let newSpent := currentSpent + (transaction.amount.natAbs : Int)
      let upd := { challenge with progress :=
        { challenge.progress with currentAmount := some newSpent, lastCheckedAt := some now } }
      if challenge.rules.targetAmount.getD 0 < newSpent then
        ({ upd with status := "failed" }, true, false)
      else (upd, true, false)
    else (challenge, false, false)
  else if challenge.type = "category_ban" then
    if transaction.type = "expense" ∧ challenge.rules.category = some transaction.category then
      let upd := { challenge with
        status := "failed",
        progress := { challenge.progress with lastCheckedAt := some now } }
      (upd, true, false)
    else (challenge, false, false)
  else if challenge.type = "goal_contribution" then
    if transaction.type = "income" ∧ descIncludesAhorro transaction.description = true then
      let currentAmount := challenge.progress.currentAmount.getD 0
      let newAmount := currentAmount + (transaction.amount.natAbs : Int)
      let upd := { challenge with progress :=
        { challenge.progress with currentAmount := some newAmount, lastCheckedAt := some now } }
      (upd, true, decide (challenge.rules.targetAmount.getD 0 ≤ newAmount))
    else (challenge, false, false)
  else if challenge.type = "streak" then
    if transaction.type = "expense" ∧ challenge.rules.category = some transaction.category then
      let upd := { challenge with
        status := "failed",
        progress := { currentStreak := some 0, lastCheckedAt := some now } }
      (upd, true, false)
    else (challenge, false, false)
  else (challenge, false, false)

/-- `updateChallengeProgressWithTransaction(challenge, transaction)`
(lines 672–807): apply the decision, award points on completion, persist
`{status, progress}` if anything changed; returns the updated copy the source
returns (`null` modelled as `none`). -/
def updateChallengeProgressWithTransaction (st : St) (challenge : Challenge)
    (transaction : Transaction) (now : Int) : St × Option Challenge :=
  let d := incrDecision challenge transaction now
  let shouldUpdate := d.2.1
  let shouldComplete := d.2.2
  let updated := if shouldComplete then { d.1 with status := "completed" } else d.1
  let st1 :=
    if shouldComplete then
      { st with awards := st.awards ++ [⟨challenge.userId, challenge.rewardPoints, challenge.id⟩] }
    else st
  if shouldUpdate then
    let cs := dbUpdate st1.challenges challenge.id
      { status := some updated.status, progress := some updated.progress }
    ({ st1 with challenges := cs }, some updated)
  else (st1, none)

/-- The fold step of the incremental loop (lines 642–647). -/
def incrStep (transaction : Transaction) (now : Int) (acc : St) (challenge : Challenge) : St :=
  (updateChallengeProgressWithTransaction acc challenge transaction now).1

/-- `sortedTransactions[0]` after sorting by `createdAt` descending (stable
sort): the first transaction with maximal `createdAt`. -/
def latestTransaction (ts : List Transaction) : Option Transaction :=
  ts.foldl
    (fun best t =>
      match best with
      | none => some t
      | some b => if b.createdAt < t.createdAt then some t else some b)
    none

/-! ### The generator (`parseAIChallenges`, fallback, `generateChallenges`) -/

/-- A challenge draft as produced by `parseAIChallenges` or the fallback
templates: the fields of `CreateChallengeDto`, except that `type`,
`difficulty` and `frequency` are plain strings (the source casts the model's
strings with `as ChallengeType` etc. without validating them). -/
structure Draft where
  type : String
  difficulty : String
  frequency : String
  title : String
  description : String
  rules : ChallengeRules
  rewardPoints : Int
  startDate : Int
  endDate : Int
deriving DecidableEq, Repr

/-- One element of the JSON array extracted from the model's response, before
normalisation: `rules` and `rewardPoints` may be absent. -/
structure RawChallenge where
  type : String
  difficulty : String
  frequency : String
  title : String
  description : String
  rules : Option ChallengeRules
  rewardPoints : Option Int
  startDate : Int
  endDate : Int
deriving DecidableEq, Repr

/-- JS `c.rewardPoints || 50`: `undefined` and `0` (both falsy) become 50. -/
def jsOrFifty : Option Int → Int
  | none => 50
  | some 0 => 50
  | some n => n

/-- The outcome of running `aiResponse.match(/\[[\s\S]*\]/)` and `JSON.parse`
on the content model's response: no array found, the extracted text is not
valid JSON, or a parsed array of raw objects. -/
inductive AIOutcome where
  | noJsonArray
  | invalidJson
  | parsed (raw : List RawChallenge)

/-- The per-element normalisation of `parseAIChallenges` (lines 250–260):
the enum fields are cast through unvalidated, `rules` defaults to `{}`,
`rewardPoints` to `|| 50`. -/
def normalizeRaw (c : RawChallenge) : Draft :=
  { type := c.type
    difficulty := c.difficulty
    frequency := c.frequency
    title := c.title
    description := c.description
    rules := c.rules.getD {}
    rewardPoints := jsOrFifty c.rewardPoints
    startDate := c.startDate
    endDate := c.endDate }

/-- `generateFallbackChallenges()` (lines 272–311): the fixed template set,
three drafts valid for one week from `now`. -/
def generateFallbackChallenges (now : Int) : List Draft :=
  let endDate := now + 7 * 24 * 60 * 60 * 1000
  [ { type := "spending_limit"
      difficulty := "easy"
      frequency := "weekly"
      title := "🎯 Gasto Consciente"
      description := "Mantén tus gastos diarios bajo control durante esta semana"
      rules := { targetAmount := some 500 }
      rewardPoints := 50
      startDate := now
      endDate := endDate },
    { type := "savings"
      difficulty := "medium"
      frequency := "weekly"
      title := "💰 Ahorro Semanal"
      description := "Ahorra al menos $200 esta semana"
      rules := { targetAmount := some 200 }
      rewardPoints := 75
      startDate := now
      endDate := endDate },
    { type := "category_ban"
      difficulty := "hard"
      frequency := "weekly"
      title := "🚫 Semana sin Delivery"
      description := "No gastes en comida delivery durante 7 días"
      rules := { category := some "delivery", streakDays := some 7 }
      rewardPoints := 100
      startDate := now
      endDate := endDate } ]

/-- `parseAIChallenges(aiResponse)` (lines 239–267): on a missing array or a
JSON parse error the thrown exception is caught and the fallback templates
are returned; a successfully parsed array is normalised element-wise with no
validation of enum values or amounts. -/
def parseAIChallenges (outcome : AIOutcome) (now : Int) : List Draft :=
  match outcome with
  | .parsed raw => raw.map normalizeRaw
  | .noJsonArray => generateFallbackChallenges now
  | .invalidJson => generateFallbackChallenges now

/-- A persisted AI-generated challenge (lines 87–104): status `active`,
zeroed progress. The fresh uuid is supplied by the caller. -/
def draftToChallenge (id userId : String) (now : Int) (d : Draft) : Challenge :=
  { id := id
    userId := userId
    type := d.type
    status := "active"
    rules := d.rules
    progress := { currentAmount := some 0, currentStreak := some 0, lastCheckedAt := some now }
    rewardPoints := d.rewardPoints
    startDate := d.startDate
    endDate := d.endDate }

/-- `generateChallenges(input)` (lines 65–109): parse the model's response
(or fall back) and insert each draft as an active challenge. `uuid i` is the
fresh id of the i-th draft; the requested `count` only enters the prompt sent
to the content model, which is abstracted by `outcome`, so it does not bound
the number of drafts persisted. -/
def generateChallenges (st : St) (userId : String) (outcome : AIOutcome)
    (uuid : Nat → String) (now : Int) : St × List Challenge :=
  let generatedChallenges := parseAIChallenges outcome now
  (generatedChallenges.enum.foldl
      (fun acc d =>
        { acc with challenges := dbInsert acc.challenges (draftToChallenge (uuid d.1) userId now d.2) })
      st,
   generatedChallenges.enum.map (fun d => draftToChallenge (uuid d.1) userId now d.2))

/-- `updateChallengesWithNewData(userId)` (lines 616–667), the reactive pass:
evaluate each active challenge against the latest transaction, then top the
population back up to 3 via `generateChallenges`. The second component is the
`count` requested from the generator (`3 - remainingActive.length`, line 655),
`none` when generation is not triggered. -/
def updateChallengesWithNewData (st : St) (userId : String) (now : Int)
    (outcome : AIOutcome) (uuid : Nat → String) : St × Option Nat :=
  let r1 := getActiveChallenges st userId now
  let activeChallenges := r1.2
  let allTransactions := r1.1.transactions.filter (fun t => decide (t.userId = userId))
  match latestTransaction allTransactions with
  | none => (r1.1, none)
  | some latest =>
    let st2 := activeChallenges.foldl (incrStep latest now) r1.1
    let r3 := getActiveChallenges st2 userId now
    let remainingActive := r3.2
    if remainingActive.length < 3 then
      ((generateChallenges r3.1 userId outcome uuid now).1, some (3 - remainingActive.length))
    else (r3.1, none)

/-! ### Evaluation passes -/

/-- One evaluation pass over a user's challenges: the batch path
(`checkProgress`) or the reactive path (`updateChallengesWithNewData`, whose
content-model outcome and fresh uuids are parameters). -/
inductive Pass where
  | batch (now : Int)
  | incr (now : Int) (outcome : AIOutcome) (uuid : Nat → String)

/-- Run one pass for a user. -/
def runPass (userId : String) (st : St) : Pass → St
  | .batch now => checkProgress st userId now
  | .incr now outcome uuid => (updateChallengesWithNewData st userId now outcome uuid).1

/-- Run a sequence of passes. -/
def runPasses (userId : String) (passes : List Pass) (st : St) : St :=
  passes.foldl (runPass userId) st

/-- The fresh uuids of an incremental pass avoid a given challenge id (true
for the source, which draws v4 uuids for new challenges). -/
def PassAvoids (p : Pass) (id : String) : Prop :=
  match p with
  | .batch _ => True
  | .incr _ _ uuid => ∀ i, uuid i ≠ id

/-- All ids in the challenge store are distinct (the store is a `Map` keyed
by id, and uuids are fresh). -/
def IdsNodup (st : St) : Prop :=
  (st.challenges.map (fun c => c.id)).Nodup

/-- The reward-issuance invariant for one challenge id: the number of points
awards carrying this id equals 1 if the stored challenge is `completed` and 0
otherwise. -/
def RewardInv (st : St) (id : String) : Prop :=
  awardsFor st id = if statusOf st id = some "completed" then 1 else 0

/-! ### The rewards ledger (`RewardsService`) -/

/-- A user's points record (`UserPoints`). -/
structure UserPoints where
  points : Int
  totalEarned : Int
  totalSpent : Int
deriving DecidableEq, Repr

/-- A `points_transactions` record (id, userId and metadata omitted). -/
structure PointsTransactionRec where
  points : Int
  type : String
  reason : String
deriving DecidableEq, Repr

/-- One user's slice of the rewards store: the points record plus the
points-transaction log. -/
structure RewardsState where
  userPoints : UserPoints
  history : List PointsTransactionRec
deriving DecidableEq, Repr

/-- `createUserPoints`: the initial record with all counters 0. -/
def initialRewardsState : RewardsState :=
  ⟨⟨0, 0, 0⟩, []⟩

/-- `addPoints(userId, points, reason)` (lines 240–265). -/
def addPoints (st : RewardsState) (points : Int) (reason : String) : RewardsState :=
  { userPoints :=
      { points := st.userPoints.points + points
        totalEarned := st.userPoints.totalEarned + points
        totalSpent := st.userPoints.totalSpent }
    history := st.history ++ [⟨points, "earn", reason⟩] }

/-- `subtractPoints(userId, points, reason)` (lines 270–299): throws
`Puntos insuficientes` before touching the record or the log when the balance
is too small. -/
def subtractPoints (st : RewardsState) (points : Int) (reason : String) :
    Except String RewardsState :=
  if st.userPoints.points < points then
    .error "Puntos insuficientes"
  else
    .ok
      { userPoints :=
          { points := st.userPoints.points - points
            totalEarned := st.userPoints.totalEarned
            totalSpent := st.userPoints.totalSpent + points }
        history := st.history ++ [⟨points, "spend", reason⟩] }

/-- A call into the ledger. -/
inductive PointsOp where
  | add (amount : Int) (reason : String)
  | sub (amount : Int) (reason : String)
deriving Repr

/-- The amount of a ledger call. -/
def PointsOp.amount : PointsOp → Int
  | .add a _ => a
  | .sub a _ => a

/-- Run one ledger call; a thrown `subtractPoints` leaves the state unchanged
(the update and the log insert never happened). -/
def runPointsOp (st : RewardsState) : PointsOp → RewardsState
  | .add a r => addPoints st a r
  | .sub a r =>
    match subtractPoints st a r with
    | .ok st' => st'
    | .error _ => st

/-- Number of challenges stored as `active` for a user. -/
def numActiveFor (st : St) (userId : String) : Nat :=
  (st.challenges.filter (fun c => decide (c.userId = userId ∧ c.status = "active"))).length

/-- A state transition left the record with the given challenge id and the
awards carrying that id untouched. -/
def UntouchedAt (st st' : St) (id : String) : Prop :=
  findC st'.challenges id = findC st.challenges id ∧ awardsFor st' id = awardsFor st id

/-! ### Concrete fixtures used by counterexamples and witnesses -/

/-- A one-week `category_ban` challenge on `delivery` (the fallback template's
shape), starting at epoch 0. -/
def chBan : Challenge :=
  { id := "ban1", userId := "u", type := "category_ban", status := "active",
    rules := { category := some "delivery", streakDays := some 7 },
    progress := { currentAmount := some 0, currentStreak := some 0, lastCheckedAt := some 0 },
    rewardPoints := 100, startDate := 0, endDate := 604800000 }

/-- Store holding only `chBan`, with no transactions. -/
def stBan : St := ⟨[chBan], [], [], []⟩

/-- A completed challenge record, for the terminality counterexample. -/
def chDone : Challenge :=
  { id := "done1", userId := "u", type := "savings", status := "completed",
    rules := { targetAmount := some 100 },
    progress := { currentAmount := some 150, currentStreak := some 0, completedAt := some 800 },
    rewardPoints := 10, startDate := 0, endDate := 604800000 }

/-- Store holding only `chDone`, with its single reward already issued. -/
def stDone : St := ⟨[chDone], [], [], [⟨"u", 10, "done1"⟩]⟩

/-- A `spending_limit` challenge carrying a `rules.category` of `"food"`. -/
def chLimitFood : Challenge :=
  { id := "lim1", userId := "u", type := "spending_limit", status := "active",
    rules := { targetAmount := some 100, category := some "food" },
    progress := { currentAmount := some 0, currentStreak := some 0 },
    rewardPoints := 10, startDate := 0, endDate := 604800000 }

/-- An expense outside that category. -/
def txTransport : Transaction :=
  { id := "t1", userId := "u", type := "expense", amount := 10, category := "transport",
    description := "bus", createdAt := 1000 }

/-- Store with `chLimitFood` and the single `transport` expense. -/
def stLimit : St := ⟨[chLimitFood], [txTransport], [], []⟩

/-- A one-week `streak` challenge on `delivery` (Scenario D). -/
def chStreak : Challenge :=
  { id := "str1", userId := "u", type := "streak", status := "active",
    rules := { category := some "delivery", streakDays := some 7 },
    progress := { currentAmount := some 0, currentStreak := some 0 },
    rewardPoints := 10, startDate := 0, endDate := 604800000 }

/-- A `delivery` expense on day 3. -/
def txDelivery : Transaction :=
  { id := "t2", userId := "u", type := "expense", amount := 20, category := "delivery",
    description := "pizza", createdAt := 259200000 }

/-- Store with `chStreak` and the day-3 delivery expense. -/
def stStreak : St := ⟨[chStreak], [txDelivery], [], []⟩

/-- An income transaction that touches no challenge rule. -/
def txIncome : Transaction :=
  { id := "t3", userId := "u", type := "income", amount := 5, category := "salary",
    description := "pay", createdAt := 1000 }

/-- Store with one active challenge and one transaction, for the population
counterexample. -/
def stPop : St := ⟨[chBan], [txIncome], [], []⟩

/-- A deterministic fresh-uuid supply. -/
def uuidG (i : Nat) : String := "gen-" ++ toString i

/-- An injective fresh-uuid supply whose values are runs of `g`s, so they
provably differ from every fixture id. -/
def uuidRep (i : Nat) : String := String.mk (List.replicate (i + 1) 'g')

/-- A raw AI draft whose `type` is not one of the six challenge types. -/
def rawBogus : RawChallenge :=
  { type := "bogus", difficulty := "easy", frequency := "weekly", title := "x",
    description := "y", rules := none, rewardPoints := some 0, startDate := 0, endDate := 1 }

/-- An under-target savings challenge, for witnesses. -/
def chSav : Challenge :=
  { id := "sav1", userId := "u", type := "savings", status := "active",
    rules := { targetAmount := some 100 },
    progress := { currentAmount := some 0, currentStreak := some 0 },
    rewardPoints := 10, startDate := 0, endDate := 604800000 }

/-- An income transaction exceeding `chSav`'s target. -/
def txPay : Transaction :=
  { id := "t4", userId := "u", type := "income", amount := 150,
    category := "salary", description := "pay", createdAt := 500 }

/-- Store with `chSav` and `txPay`. -/
def stSav : St := ⟨[chSav], [txPay], [], []⟩

/-! ## Theorems for the claims -/

/-- Claim C1. The incremental per-transaction path and the batch re-evaluation
diverge on the code: for a `spending_limit` challenge with `rules.category =
"food"` and a single `transport` expense of 10, the batch `checkProgress`
(whose `calculateProgress` ignores `rules.category`) records
`currentAmount = 10`, while `updateChallengesWithNewData` (whose incremental
branch skips expenses outside the category) leaves the progress untouched, so
the final stored challenge states differ. The spec's required
incremental/batch equivalence fails; since the spec explicitly calls such a
disagreement a defect, this is a bug in the code. -/
theorem c1_incremental_batch_diverge :
    ((findC (checkProgress stLimit "u" 2000).challenges "lim1").map
        (fun c => c.progress.currentAmount) = some (some 10)) ∧
    ((findC ((updateChallengesWithNewData stLimit "u" 2000 (.parsed []) uuidG).1).challenges
          "lim1").map (fun c => c.progress.currentAmount) = some (some 0)) ∧
    findC (checkProgress stLimit "u" 2000).challenges "lim1" ≠
      findC ((updateChallengesWithNewData stLimit "u" 2000 (.parsed []) uuidG).1).challenges
        "lim1" := by
  refine ⟨by decide, by decide, by decide⟩

/-- Claim C3, counterexample. Scenario C of the spec fails on the code: the
`category_ban` challenge on `delivery` with no transactions, evaluated one
second after `endDate`, does not end `EXPIRED` with no reward — `checkProgress`
re-evaluates the stale fetched copy, its streak completion check
(`currentStreak ≥ streakDays`, 7 ≥ 7) fires, and the challenge ends
`completed` with its points awarded. -/
theorem c3_counterexample :
    statusOf (checkProgress stBan "u" 604801000) "ban1" = some "completed" ∧
    awardsFor (checkProgress stBan "u" 604801000) "ban1" = 1 := by
  refine ⟨by decide, by decide⟩

/-- Claim C4, counterexample. The update operation has no terminality guard:
applying `updateChallenge` with `{status: ACTIVE}` to a `completed` challenge
moves it back to `active`, so "no operation transitions a challenge out of a
terminal status" is false as stated. -/
theorem c4_counterexample :
    statusOf stDone "done1" = some "completed" ∧
    statusOf (updateChallenge stDone "done1" { status := some "active" }) "done1" =
      some "active" := by
  refine ⟨by decide, by decide⟩

/-- Claim C5, counterexample. For a `spending_limit` challenge with
`rules.category = "food"`, the batch evaluator counts a `transport` expense of
10: `currentAmount` is 10 with the transaction and 0 without it, so the
claimed restriction to `rules.category` does not hold in
`calculateProgress`. -/
theorem c5_counterexample :
    (calculateProgress chLimitFood [txTransport] [] 2000).currentAmount = some 10 ∧
    (calculateProgress chLimitFood [] [] 2000).currentAmount = some 0 ∧
    (calculateProgress chLimitFood [txTransport] [] 2000).currentAmount ≠
      (calculateProgress chLimitFood [] [] 2000).currentAmount := by
  refine ⟨by decide, by decide, by decide⟩

/-- Claim C6, counterexample. Scenario D fails on the code for the batch
evaluator: after a `delivery` expense on day 3, the streak is reset to 0 but
the verdict is not FAIL — `isChallengeFailed` has no `streak` case before
`endDate`, so `checkProgress` leaves the challenge `active`. -/
theorem c6_counterexample :
    isChallengeFailed chStreak (calculateProgress chStreak [txDelivery] [] 259200000)
        259200000 = false ∧
    statusOf (checkProgress stStreak "u" 259200000) "str1" = some "active" := by
  refine ⟨by decide, by decide⟩

/-- Claim C7, counterexample. A `category_ban` challenge with no transactions
at all, evaluated one hour after `startDate` (before `endDate`), is failed by
the evaluator: `currentStreak` is 0 because less than one whole day has
elapsed, and the failure test `currentStreak = 0 ∧ now > startDate` cannot
distinguish that from a banned purchase — contradicting "FAIL exactly when
some banned expense occurs, CONTINUE in every other case". -/
theorem c7_counterexample :
    isChallengeFailed chBan (calculateProgress chBan [] [] 3600000) 3600000 = true ∧
    statusOf (checkProgress stBan "u" 3600000) "ban1" = some "failed" := by
  refine ⟨by decide, by decide⟩

/-- Claim C8, counterexample. An AI response that parses as a JSON array but
carries an invalid enum value is not strict-parsed to the fallback: the bogus
`type` is cast through unvalidated and the returned drafts are not the
fallback template set. -/
theorem c8_counterexample :
    parseAIChallenges (.parsed [rawBogus]) 0 ≠ generateFallbackChallenges 0 ∧
    (parseAIChallenges (.parsed [rawBogus]) 0).map (fun d => d.type) = ["bogus"] := by
  refine ⟨by decide, by decide⟩

/-- Claim C8, amended. The fallback fires exactly on the two genuine parse
failures — no JSON array found, or invalid JSON — and returns the fixed
template set of three drafts typed `spending_limit`, `savings`,
`category_ban`; a successfully parsed array is normalised element-wise with
no validation of enum values (`as ChallengeType` casts) or amounts
(`rewardPoints || 50`). -/
theorem c8_amended (now : Int) (raw : List RawChallenge) :
    parseAIChallenges .noJsonArray now = generateFallbackChallenges now ∧
    parseAIChallenges .invalidJson now = generateFallbackChallenges now ∧
    (generateFallbackChallenges now).map (fun d => d.type) =
      ["spending_limit", "savings", "category_ban"] ∧
    parseAIChallenges (.parsed raw) now = raw.map normalizeRaw := by
  exact ⟨rfl, rfl, rfl, rfl⟩

/-- Claim C9, counterexample. A user with 1 active challenge does not get
exactly 2 new drafts: the generator is asked for 2 (`3 − 1`), but when the
content model's response is unparseable the fallback returns its fixed 3
templates and all 3 are persisted `active`, leaving 4 active challenges
instead of 3. -/
theorem c9_counterexample :
    numActiveFor stPop "u" = 1 ∧
    (updateChallengesWithNewData stPop "u" 2000 .noJsonArray uuidG).2 = some 2 ∧
    numActiveFor ((updateChallengesWithNewData stPop "u" 2000 .noJsonArray uuidG).1) "u" = 4 ∧
    (4 : Nat) ≠ 1 + 2 := by
  refine ⟨by decide, by decide, by decide, by decide⟩

/-- One ledger call keeps a nonnegative balance nonnegative when its amount is
nonnegative. -/
theorem runPointsOp_nonneg (st : RewardsState) (op : PointsOp)
    (h0 : 0 ≤ st.userPoints.points) (ha : 0 ≤ op.amount) :
    0 ≤ (runPointsOp st op).userPoints.points := by
  cases op with
  | add a r =>
    simpa [runPointsOp, addPoints] using add_nonneg h0 ha
  | sub a r =>
    by_cases hlt : st.userPoints.points < a
    · simp [runPointsOp, subtractPoints, hlt, h0]
    · simp only [runPointsOp, subtractPoints, if_neg hlt]
      simpa using sub_nonneg.mpr (le_of_not_lt hlt)

/-- Claim C10. Starting from the initial points record with balance 0, any
sequence of `addPoints`/`subtractPoints` calls with nonnegative amounts keeps
the balance nonnegative, and a `subtractPoints` whose amount exceeds the
current balance throws `Puntos insuficientes` and leaves the record and the
points-transaction log unchanged. -/
theorem c10_points_nonneg (ops : List PointsOp) (h : ∀ op ∈ ops, 0 ≤ op.amount) :
    0 ≤ (ops.foldl runPointsOp initialRewardsState).userPoints.points ∧
    (∀ (st : RewardsState) (amount : Int) (reason : String),
      st.userPoints.points < amount →
        subtractPoints st amount reason = .error "Puntos insuficientes" ∧
        runPointsOp st (.sub amount reason) = st) := by
  constructor
  · have main : ∀ (l : List PointsOp) (st : RewardsState), (∀ op ∈ l, 0 ≤ op.amount) →
        0 ≤ st.userPoints.points → 0 ≤ (l.foldl runPointsOp st).userPoints.points := by
      intro l
      induction l with
      | nil => intro st _ h0; simpa using h0
      | cons op rest ih =>
        intro st hl h0
        simp only [List.foldl_cons]
        exact ih _ (fun o ho => hl o (List.mem_cons_of_mem _ ho))
          (runPointsOp_nonneg st op h0 (hl op (List.mem_cons_self _ _)))
    exact main ops initialRewardsState h le_rfl
  · intro st amount reason hlt
    refine ⟨by simp [subtractPoints, hlt], by simp [runPointsOp, subtractPoints, hlt]⟩

/-- Witness for `c10_points_nonneg` at a concrete run: add 5, spend 3, then a
failing spend of 10; the final balance is nonnegative and the failing spend
left the state untouched. -/
theorem c10_points_nonneg_witness :
    0 ≤ (([PointsOp.add 5 "bonus", PointsOp.sub 3 "gift", PointsOp.sub 10 "tv"].foldl
        runPointsOp initialRewardsState).userPoints.points) ∧
    runPointsOp ⟨⟨2, 5, 3⟩, []⟩ (.sub 10 "tv") = ⟨⟨2, 5, 3⟩, []⟩ :=
  ⟨(c10_points_nonneg [.add 5 "bonus", .sub 3 "gift", .sub 10 "tv"] (by decide)).1,
   ((c10_points_nonneg [] (by decide)).2 ⟨⟨2, 5, 3⟩, []⟩ 10 "tv" (by decide)).2⟩

/-- Claim C5, amended. For every `spending_limit` challenge the evaluator
computes `currentAmount` as the sum of all expense transactions at or after
`startDate` — `rules.category` is ignored by the batch evaluator (only the
incremental path restricts to it); before `endDate` the verdict is FAIL
exactly when `currentAmount > targetAmount`, and COMPLETE exactly when the
instant is at or after `endDate` with `currentAmount ≤ targetAmount`. -/
theorem c5_amended (ch : Challenge) (txs : List Transaction) (gs : List Goal) (now : Int)
    (h : ch.type = "spending_limit") :
    (calculateProgress ch txs gs now).currentAmount =
      some (sumAmounts ((txs.filter (fun t => decide (ch.startDate ≤ t.createdAt))).filter
        (fun t => decide (t.type = "expense")))) ∧
    (∀ p : ChallengeProgress, now < ch.endDate →
      (isChallengeFailed ch p now = true ↔
        ch.rules.targetAmount.getD 0 < p.currentAmount.getD 0)) ∧
    (∀ p : ChallengeProgress,
      isChallengeCompleted ch p now = true ↔
        ch.endDate ≤ now ∧ p.currentAmount.getD 0 ≤ ch.rules.targetAmount.getD 0) := by
  refine ⟨?_, ?_, ?_⟩
  · simp [calculateProgress, h]
  · intro p hlt
    simp [isChallengeFailed, h, not_le.mpr hlt]
  · intro p
    simp [isChallengeCompleted, h]

/-- Witness for `c5_amended` at `chLimitFood` with the `transport` expense. -/
theorem c5_amended_witness :
    (calculateProgress chLimitFood [txTransport] [] 2000).currentAmount =
      some (sumAmounts (([txTransport].filter
          (fun t => decide (chLimitFood.startDate ≤ t.createdAt))).filter
        (fun t => decide (t.type = "expense")))) :=
  (c5_amended chLimitFood [txTransport] [] 2000 (by decide)).1

/-- Claim C6, amended. For every `streak` challenge the evaluator resets
`currentStreak` to 0 exactly when some expense in `rules.category` occurs at
or after `startDate` (otherwise it is the whole days elapsed); the verdict is
COMPLETE once `currentStreak ≥ streakDays`; but before `endDate` the batch
evaluator never yields FAIL for a streak challenge — only the incremental
per-transaction path marks it `failed` (with streak 0) on a banned expense. -/
theorem c6_amended (ch : Challenge) (txs : List Transaction) (gs : List Goal)
    (st : St) (tx : Transaction) (now : Int) (h : ch.type = "streak") :
    (calculateProgress ch txs gs now).currentStreak =
      some (if ((txs.filter (fun t => decide (ch.startDate ≤ t.createdAt))).filter
            (fun t => decide (t.type = "expense" ∧ ch.rules.category = some t.category))).isEmpty
          then calculateStreakDays ch.startDate now else 0) ∧
    (∀ p : ChallengeProgress, now < ch.endDate → isChallengeFailed ch p now = false) ∧
    (∀ p : ChallengeProgress,
      isChallengeCompleted ch p now = true ↔
        ch.rules.streakDays.getD 0 ≤ p.currentStreak.getD 0) ∧
    (tx.type = "expense" → ch.rules.category = some tx.category →
      (updateChallengeProgressWithTransaction st ch tx now).2 =
        some { ch with status := "failed", progress := { currentStreak := some 0, lastCheckedAt := some now } }) := by
  refine ⟨?_, ?_, ?_, ?_⟩
  · simp [calculateProgress, h]
  · intro p hlt
    simp [isChallengeFailed, h, not_le.mpr hlt]
  · intro p
    simp [isChallengeCompleted, h]
  · intro htx hcat
    simp [updateChallengeProgressWithTransaction, incrDecision, h, htx, hcat]

/-- Witness for `c6_amended` at `chStreak` and the day-3 delivery expense. -/
theorem c6_amended_witness :
    (updateChallengeProgressWithTransaction stStreak chStreak txDelivery 259200000).2 =
      some { chStreak with status := "failed", progress := { currentStreak := some 0, lastCheckedAt := some 259200000 } } :=
  (c6_amended chStreak [txDelivery] [] stStreak txDelivery 259200000 (by decide)).2.2.2
    (by decide) (by decide)

/-- Claim C7, amended. For every `category_ban` challenge the evaluator
computes the same streak as for `streak` challenges and CAN yield COMPLETE on
its own (once `currentStreak ≥ streakDays`, with a missing `streakDays`
defaulting to 0); before `endDate` it yields FAIL exactly when
`currentStreak = 0 ∧ now > startDate`, which holds both when a banned expense
occurred and when less than one whole day has elapsed since `startDate` —
not exactly when a banned expense occurred. -/
theorem c7_amended (ch : Challenge) (txs : List Transaction) (gs : List Goal) (now : Int)
    (h : ch.type = "category_ban") :
    (calculateProgress ch txs gs now).currentStreak =
      some (if ((txs.filter (fun t => decide (ch.startDate ≤ t.createdAt))).filter
            (fun t => decide (t.type = "expense" ∧ ch.rules.category = some t.category))).isEmpty
          then calculateStreakDays ch.startDate now else 0) ∧
    (∀ p : ChallengeProgress,
      isChallengeCompleted ch p now = true ↔
        ch.rules.streakDays.getD 0 ≤ p.currentStreak.getD 0) ∧
    (∀ p : ChallengeProgress, now < ch.endDate →
      (isChallengeFailed ch p now = true ↔
        (p.currentStreak.getD 0 = 0 ∧ ch.startDate < now))) := by
  refine ⟨?_, ?_, ?_⟩
  · simp [calculateProgress, h]
  · intro p
    simp [isChallengeCompleted, h]
  · intro p hlt
    simp [isChallengeFailed, h, not_le.mpr hlt]

/-- Witness for `c7_amended` at `chBan`, one hour in, with no transactions:
the failure verdict fires with no banned expense. -/
theorem c7_amended_witness :
    isChallengeFailed chBan (calculateProgress chBan [] [] 3600000) 3600000 = true ↔
      ((calculateProgress chBan [] [] 3600000).currentStreak.getD 0 = 0 ∧
        chBan.startDate < 3600000) :=
  (c7_amended chBan [] [] 3600000 (by decide)).2.2 (calculateProgress chBan [] [] 3600000)
    (by decide)

/-! ### Helper lemmas on the store -/

/-- A fold whose step preserves a projection preserves it globally. -/
theorem foldl_proj {α β γ : Type} (f : β → α → β) (proj : β → γ)
    (h : ∀ b a, proj (f b a) = proj b) :
    ∀ (L : List α) (b : β), proj (L.foldl f b) = proj b := by
  intro L
  induction L with
  | nil => intro b; rfl
  | cons a rest ih => intro b; rw [List.foldl_cons, ih, h]

theorem applyUpdate_id (c : Challenge) (d : UpdateChallengeDto) :
    (applyUpdate c d).id = c.id := rfl

theorem dbUpdate_map_id (cs : List Challenge) (id : String) (d : UpdateChallengeDto) :
    (dbUpdate cs id d).map (fun c => c.id) = cs.map (fun c => c.id) := by
  induction cs with
  | nil => rfl
  | cons c rest ih =>
    by_cases h : c.id = id <;> simp [dbUpdate, h, applyUpdate] <;>
      simpa [dbUpdate] using ih

/-- `find?` by id commutes with a map that preserves the id field. -/
theorem find?_map_id (cs : List Challenge) (f : Challenge → Challenge)
    (hf : ∀ x, (f x).id = x.id) (id : String) :
    (cs.map f).find? (fun c => decide (c.id = id)) =
      (cs.find? (fun c => decide (c.id = id))).map f := by
  induction cs with
  | nil => rfl
  | cons a rest ih =>
    by_cases ha : a.id = id
    · have h1 : decide ((f a).id = id) = true := decide_eq_true (by rw [hf]; exact ha)
      have h2 : decide (a.id = id) = true := decide_eq_true ha
      simp [List.find?, h1, h2]
    · have h1 : decide ((f a).id = id) = false := decide_eq_false (by rw [hf]; exact ha)
      have h2 : decide (a.id = id) = false := decide_eq_false ha
      simp only [List.map_cons, List.find?, h1, h2]
      exact ih

theorem findC_dbUpdate_ne (cs : List Challenge) (tid : String) (d : UpdateChallengeDto)
    (id : String) (h : tid ≠ id) :
    findC (dbUpdate cs tid d) id = findC cs id := by
  unfold findC dbUpdate
  rw [find?_map_id _ _ (fun x => by by_cases hx : x.id = tid <;> simp [hx, applyUpdate])]
  cases hr : cs.find? (fun c => decide (c.id = id)) with
  | none => rfl
  | some r =>
    have hrid : r.id = id := by simpa using List.find?_some hr
    have : r.id ≠ tid := by rw [hrid]; exact fun hEq => h hEq.symm
    simp [this]

theorem findC_dbUpdate_self (cs : List Challenge) (tid : String) (d : UpdateChallengeDto) :
    findC (dbUpdate cs tid d) tid = (findC cs tid).map (fun c => applyUpdate c d) := by
  unfold findC dbUpdate
  rw [find?_map_id _ _ (fun x => by by_cases hx : x.id = tid <;> simp [hx, applyUpdate])]
  cases hr : cs.find? (fun c => decide (c.id = tid)) with
  | none => rfl
  | some r =>
    have hrid : r.id = tid := by simpa using List.find?_some hr
    simp [hrid]

theorem findC_dbInsert_ne (cs : List Challenge) (c : Challenge) (id : String)
    (h : c.id ≠ id) :
    findC (dbInsert cs c) id = findC cs id := by
  unfold findC dbInsert
  split
  · rw [find?_map_id _ _ (fun x => by by_cases hx : x.id = c.id <;> simp [hx])]
    cases hr : cs.find? (fun x => decide (x.id = id)) with
    | none => rfl
    | some r =>
      have hrid : r.id = id := by simpa using List.find?_some hr
      have : r.id ≠ c.id := by rw [hrid]; exact fun hEq => h hEq.symm
      simp [this]
  · rw [List.find?_append]
    have : List.find? (fun x => decide (x.id = id)) [c] = none := by
      simp [List.find?, h]
    rw [this, Option.or_none]

theorem findC_eq_none (cs : List Challenge) (id : String) :
    findC cs id = none ↔ ∀ c ∈ cs, c.id ≠ id := by
  simp [findC, List.find?_eq_none]

theorem mem_of_findC (cs : List Challenge) (id : String) (c : Challenge)
    (h : findC cs id = some c) : c ∈ cs ∧ c.id = id := by
  refine ⟨List.mem_of_find?_eq_some h, ?_⟩
  have := List.find?_some h
  simpa using this

theorem findC_of_mem (cs : List Challenge) (c : Challenge)
    (hnd : (cs.map (fun x => x.id)).Nodup) (hm : c ∈ cs) :
    findC cs c.id = some c := by
  induction cs with
  | nil => cases hm
  | cons a rest ih =>
    rcases List.mem_cons.mp hm with rfl | hm'
    · simp [findC, List.find?]
    · have ha : a.id ≠ c.id := by
        intro hEq
        have : c.id ∈ rest.map (fun x => x.id) := List.mem_map_of_mem _ hm'
        rw [← hEq] at this
        exact (List.nodup_cons.mp (by simpa using hnd)).1 this
      have hrest : (rest.map (fun x => x.id)).Nodup := (List.nodup_cons.mp (by simpa using hnd)).2
      simp [findC, List.find?, ha] at ih ⊢
      exact ih hrest hm'

theorem awardsFor_append (st : St) (a : Award) (id : String) :
    awardsFor { st with awards := st.awards ++ [a] } id =
      awardsFor st id + (if a.challengeId = id then 1 else 0) := by
  by_cases h : a.challengeId = id <;> simp [awardsFor, List.filter_append, h]

theorem untouchedAt_refl (st : St) (id : String) : UntouchedAt st st id := ⟨rfl, rfl⟩

theorem untouchedAt_trans {a b c : St} {id : String} (h1 : UntouchedAt a b id)
    (h2 : UntouchedAt b c id) : UntouchedAt a c id :=
  ⟨h2.1.trans h1.1, h2.2.trans h1.2⟩

/-! ### Effect of the evaluation steps on a fixed challenge id -/

theorem expireStep_transactions (now : Int) (acc : St) (c : Challenge) :
    (expireStep now acc c).transactions = acc.transactions := by
  unfold expireStep; split <;> rfl

theorem expireStep_goals (now : Int) (acc : St) (c : Challenge) :
    (expireStep now acc c).goals = acc.goals := by
  unfold expireStep; split <;> rfl

theorem expireStep_awards (now : Int) (acc : St) (c : Challenge) :
    (expireStep now acc c).awards = acc.awards := by
  unfold expireStep; split <;> rfl

theorem expireStep_map_id (now : Int) (acc : St) (c : Challenge) :
    (expireStep now acc c).challenges.map (fun x => x.id) =
      acc.challenges.map (fun x => x.id) := by
  unfold expireStep; split
  · exact dbUpdate_map_id _ _ _
  · rfl

theorem expireStep_untouched (now : Int) (acc : St) (c : Challenge) (id : String)
    (h : c.id ≠ id) : UntouchedAt acc (expireStep now acc c) id := by
  unfold expireStep UntouchedAt
  split
  · exact ⟨findC_dbUpdate_ne _ _ _ _ h, rfl⟩
  · exact ⟨rfl, rfl⟩

theorem expireStep_findC_self (now : Int) (acc : St) (r : Challenge) :
    findC (expireStep now acc r).challenges r.id =
      if r.endDate < now then
        (findC acc.challenges r.id).map (fun c => applyUpdate c { status := some "expired" })
      else findC acc.challenges r.id := by
  unfold expireStep
  split
  · exact findC_dbUpdate_self _ _ _
  · rfl

theorem updateChallenge_untouched (st : St) (cid : String) (d : UpdateChallengeDto)
    (id : String) (h : cid ≠ id) : UntouchedAt st (updateChallenge st cid d) id :=
  ⟨findC_dbUpdate_ne _ _ _ _ h, rfl⟩

theorem failChallenge_untouched (st : St) (cid : String) (p : ChallengeProgress)
    (id : String) (h : cid ≠ id) : UntouchedAt st (failChallenge st cid p) id :=
  ⟨findC_dbUpdate_ne _ _ _ _ h, rfl⟩

theorem completeChallenge_untouched (st : St) (cid : String) (p : ChallengeProgress)
    (now : Int) (id : String) (h : cid ≠ id) :
    UntouchedAt st (completeChallenge st cid p now) id := by
  unfold completeChallenge UntouchedAt
  cases hf : findC st.challenges cid with
  | none => exact ⟨rfl, rfl⟩
  | some ch =>
    refine ⟨findC_dbUpdate_ne _ _ _ _ h, ?_⟩
    simp [awardsFor, List.filter_append, h]

theorem completeChallenge_transactions (st : St) (cid : String) (p : ChallengeProgress)
    (now : Int) : (completeChallenge st cid p now).transactions = st.transactions := by
  unfold completeChallenge; split <;> rfl

theorem completeChallenge_goals (st : St) (cid : String) (p : ChallengeProgress)
    (now : Int) : (completeChallenge st cid p now).goals = st.goals := by
  unfold completeChallenge; split <;> rfl

theorem completeChallenge_map_id (st : St) (cid : String) (p : ChallengeProgress)
    (now : Int) : (completeChallenge st cid p now).challenges.map (fun x => x.id) =
      st.challenges.map (fun x => x.id) := by
  unfold completeChallenge; split
  · rfl
  · exact dbUpdate_map_id _ _ _

theorem checkStep_untouched (txs : List Transaction) (gs : List Goal) (now : Int)
    (acc : St) (e : Challenge) (id : String) (h : e.id ≠ id) :
    UntouchedAt acc (checkStep txs gs now acc e) id := by
  unfold checkStep
  dsimp only
  split_ifs
  · exact completeChallenge_untouched _ _ _ _ _ h
  · exact failChallenge_untouched _ _ _ _ h
  · exact updateChallenge_untouched _ _ _ _ h

theorem checkStep_transactions (txs : List Transaction) (gs : List Goal) (now : Int)
    (acc : St) (e : Challenge) :
    (checkStep txs gs now acc e).transactions = acc.transactions := by
  unfold checkStep
  dsimp only
  split_ifs
  · exact completeChallenge_transactions _ _ _ _
  · rfl
  · rfl

theorem checkStep_goals (txs : List Transaction) (gs : List Goal) (now : Int)
    (acc : St) (e : Challenge) :
    (checkStep txs gs now acc e).goals = acc.goals := by
  unfold checkStep
  dsimp only
  split_ifs
  · exact completeChallenge_goals _ _ _ _
  · rfl
  · rfl

theorem checkStep_map_id (txs : List Transaction) (gs : List Goal) (now : Int)
    (acc : St) (e : Challenge) :
    (checkStep txs gs now acc e).challenges.map (fun x => x.id) =
      acc.challenges.map (fun x => x.id) := by
  unfold checkStep
  dsimp only
  split_ifs
  · exact completeChallenge_map_id _ _ _ _
  · exact dbUpdate_map_id _ _ _
  · exact dbUpdate_map_id _ _ _

theorem incrStep_untouched (tx : Transaction) (now : Int) (acc : St) (e : Challenge)
    (id : String) (h : e.id ≠ id) :
    UntouchedAt acc (incrStep tx now acc e) id := by
  unfold incrStep updateChallengeProgressWithTransaction UntouchedAt
  by_cases hsc : (incrDecision e tx now).2.2 = true <;>
    by_cases hsu : (incrDecision e tx now).2.1 = true <;>
      simp only [hsc, hsu, if_true, if_false, Bool.false_eq_true, ite_true, ite_false] <;>
        constructor <;>
          first
            | exact findC_dbUpdate_ne _ _ _ _ h
            | simp [awardsFor, List.filter_append, h]
            | rfl
            | trivial

theorem incrStep_transactions (tx : Transaction) (now : Int) (acc : St) (e : Challenge) :
    (incrStep tx now acc e).transactions = acc.transactions := by
  unfold incrStep updateChallengeProgressWithTransaction
  by_cases hsc : (incrDecision e tx now).2.2 = true <;>
    by_cases hsu : (incrDecision e tx now).2.1 = true <;>
      simp [hsc, hsu]

theorem incrStep_goals (tx : Transaction) (now : Int) (acc : St) (e : Challenge) :
    (incrStep tx now acc e).goals = acc.goals := by
  unfold incrStep updateChallengeProgressWithTransaction
  by_cases hsc : (incrDecision e tx now).2.2 = true <;>
    by_cases hsu : (incrDecision e tx now).2.1 = true <;>
      simp [hsc, hsu]

theorem incrStep_map_id (tx : Transaction) (now : Int) (acc : St) (e : Challenge) :
    (incrStep tx now acc e).challenges.map (fun x => x.id) =
      acc.challenges.map (fun x => x.id) := by
  unfold incrStep updateChallengeProgressWithTransaction
  by_cases hsc : (incrDecision e tx now).2.2 = true <;>
    by_cases hsu : (incrDecision e tx now).2.1 = true <;>
      simp [hsc, hsu, dbUpdate_map_id]

/-- A fold of id-local steps over challenges with foreign ids leaves the
record and awards at `id` untouched. -/
theorem foldl_untouched {f : St → Challenge → St} {id : String}
    (hf : ∀ acc e, e.id ≠ id → UntouchedAt acc (f acc e) id) :
    ∀ (L : List Challenge) (st : St), (∀ e ∈ L, e.id ≠ id) →
      UntouchedAt st (L.foldl f st) id := by
  intro L
  induction L with
  | nil => intro st _; exact untouchedAt_refl st id
  | cons e rest ih =>
    intro st hL
    rw [List.foldl_cons]
    exact untouchedAt_trans (hf st e (hL e (List.mem_cons_self _ _)))
      (ih _ (fun x hx => hL x (List.mem_cons_of_mem _ hx)))

/-- Generic preservation of a projection through `foldl` over challenges. -/
theorem foldl_st_proj {f : St → Challenge → St} {γ : Type} {proj : St → γ}
    (hf : ∀ acc e, proj (f acc e) = proj acc) :
    ∀ (L : List Challenge) (st : St), proj (L.foldl f st) = proj st := by
  intro L
  induction L with
  | nil => intro st; rfl
  | cons e rest ih => intro st; rw [List.foldl_cons, ih, hf]

/-! ### `getActiveChallenges`: effect on the store -/

theorem getActive_transactions (st : St) (userId : String) (now : Int) :
    (getActiveChallenges st userId now).1.transactions = st.transactions := by
  unfold getActiveChallenges
  exact foldl_st_proj (fun acc e => expireStep_transactions now acc e) _ st

theorem getActive_goals (st : St) (userId : String) (now : Int) :
    (getActiveChallenges st userId now).1.goals = st.goals := by
  unfold getActiveChallenges
  exact foldl_st_proj (fun acc e => expireStep_goals now acc e) _ st

theorem getActive_awards (st : St) (userId : String) (now : Int) :
    (getActiveChallenges st userId now).1.awards = st.awards := by
  unfold getActiveChallenges
  exact foldl_st_proj (fun acc e => expireStep_awards now acc e) _ st

theorem getActive_map_id (st : St) (userId : String) (now : Int) :
    (getActiveChallenges st userId now).1.challenges.map (fun x => x.id) =
      st.challenges.map (fun x => x.id) := by
  unfold getActiveChallenges
  exact @foldl_st_proj (expireStep now) _ (fun st => st.challenges.map (fun x => x.id))
    (fun acc e => expireStep_map_id now acc e) _ st

theorem getActive_awardsFor (st : St) (userId : String) (now : Int) (id : String) :
    awardsFor (getActiveChallenges st userId now).1 id = awardsFor st id := by
  unfold awardsFor
  rw [getActive_awards]

/-- The returned list of `getActiveChallenges` is exactly the fetch-time list
of stored `active` records of the user: the post-expiry filter removes
nothing because `update` replaced store entries without mutating the fetched
copies. -/
theorem getActive_snd (st : St) (userId : String) (now : Int) :
    (getActiveChallenges st userId now).2 =
      st.challenges.filter (fun c => decide (c.userId = userId ∧ c.status = "active")) := by
  unfold getActiveChallenges
  apply List.filter_eq_self.mpr
  intro c hc
  have := (List.mem_filter.mp hc).2
  simp only [decide_eq_true_eq] at this
  simp [this.2]

theorem fetched_ids_nodup (st : St) (hnd : IdsNodup st) (p : Challenge → Bool) :
    ((st.challenges.filter p).map (fun x => x.id)).Nodup :=
  List.Nodup.sublist (List.Sublist.map _ (List.filter_sublist _)) hnd

theorem ids_ne_of_nodup_split (s t : List Challenge) (r : Challenge)
    (hnd : ((s ++ r :: t).map (fun x => x.id)).Nodup) :
    (∀ e ∈ s, e.id ≠ r.id) ∧ (∀ e ∈ t, e.id ≠ r.id) := by
  rw [List.map_append, List.map_cons] at hnd
  obtain ⟨h1, h2, hdisj⟩ := List.nodup_append.mp hnd
  constructor
  · intro e he hEq
    exact hdisj (hEq ▸ List.mem_map_of_mem _ he) (List.mem_cons_self _ _)
  · intro e he hEq
    exact (List.nodup_cons.mp h2).1 (hEq ▸ List.mem_map_of_mem _ he)

/-- Effect of `getActiveChallenges` on the stored record with a given id:
an active record of the user strictly past its end date is stamped
`expired`; every other record is untouched. -/
theorem getActive_findC (st : St) (userId : String) (now : Int) (id : String)
    (hnd : IdsNodup st) :
    findC (getActiveChallenges st userId now).1.challenges id =
      (findC st.challenges id).map (fun r =>
        if r.userId = userId ∧ r.status = "active" ∧ r.endDate < now
        then { r with status := "expired" } else r) := by
  unfold getActiveChallenges
  dsimp only
  cases hr : findC st.challenges id with
  | none =>
    have hno : ∀ e ∈ st.challenges.filter
        (fun c => decide (c.userId = userId ∧ c.status = "active")), e.id ≠ id := by
      intro e he
      exact ((findC_eq_none st.challenges id).mp hr) e (List.mem_filter.mp he).1
    rw [(foldl_untouched (fun acc e h => expireStep_untouched now acc e id h) _ st hno).1, hr]
    rfl
  | some r =>
    obtain ⟨hmem, hrid⟩ := mem_of_findC _ _ _ hr
    subst hrid
    by_cases hpred : r.userId = userId ∧ r.status = "active"
    · have hrf : r ∈ st.challenges.filter
          (fun c => decide (c.userId = userId ∧ c.status = "active")) :=
        List.mem_filter.mpr ⟨hmem, by simp [hpred]⟩
      obtain ⟨s, t, hst⟩ := List.append_of_mem hrf
      have hnd2 := fetched_ids_nodup st hnd
        (fun c => decide (c.userId = userId ∧ c.status = "active"))
      rw [hst] at hnd2
      obtain ⟨hs, ht⟩ := ids_ne_of_nodup_split s t r hnd2
      rw [hst, List.foldl_append, List.foldl_cons]
      have hsU := foldl_untouched (fun acc e h => expireStep_untouched now acc e r.id h) s st hs
      have htU := fun st' => foldl_untouched
        (fun acc e h => expireStep_untouched now acc e r.id h) t st' ht
      rw [(htU _).1, expireStep_findC_self, hsU.1, hr]
      by_cases hend : r.endDate < now
      · simp [hpred.1, hpred.2, hend, applyUpdate]
      · simp [hpred.1, hpred.2, hend]
    · have hno : ∀ e ∈ st.challenges.filter
          (fun c => decide (c.userId = userId ∧ c.status = "active")), e.id ≠ r.id := by
        intro e he hEq
        have hp := (List.mem_filter.mp he).2
        have her : e = r := by
          have hfe := findC_of_mem st.challenges e hnd (List.mem_filter.mp he).1
          rw [hEq] at hfe
          rw [hr] at hfe
          exact (Option.some_inj.mp hfe).symm
        rw [her] at hp
        simp only [decide_eq_true_eq] at hp
        exact hpred hp
      rw [(foldl_untouched (fun acc e h => expireStep_untouched now acc e r.id h) _ st hno).1, hr]
      have hnotall : ¬(r.userId = userId ∧ r.status = "active" ∧ r.endDate < now) := by
        intro hall
        exact hpred ⟨hall.1, hall.2.1⟩
      simp [hnotall]

/-! ### `checkProgress`: effect on a fixed challenge id -/

theorem checkProgress_transactions (st : St) (userId : String) (now : Int) :
    (checkProgress st userId now).transactions = st.transactions := by
  unfold checkProgress
  dsimp only
  rw [@foldl_st_proj _ _ (fun st => st.transactions)
    (fun acc e => checkStep_transactions _ _ now acc e) _ _]
  exact getActive_transactions st userId now

theorem checkProgress_map_id (st : St) (userId : String) (now : Int) :
    (checkProgress st userId now).challenges.map (fun x => x.id) =
      st.challenges.map (fun x => x.id) := by
  unfold checkProgress
  dsimp only
  rw [@foldl_st_proj _ _ (fun st => st.challenges.map (fun x => x.id))
    (fun acc e => checkStep_map_id _ _ now acc e) _ _]
  exact getActive_map_id st userId now

/-- A record that is not an active challenge of the evaluated user (absent,
foreign, or already terminal) is untouched by a batch pass. -/
theorem checkProgress_untouched (st : St) (userId : String) (now : Int) (id : String)
    (hnd : IdsNodup st)
    (hcase : ∀ c, findC st.challenges id = some c → ¬(c.userId = userId ∧ c.status = "active")) :
    UntouchedAt st (checkProgress st userId now) id := by
  unfold checkProgress
  dsimp only
  have hno : ∀ e ∈ (getActiveChallenges st userId now).2, e.id ≠ id := by
    rw [getActive_snd]
    intro e he hEq
    have hp := (List.mem_filter.mp he).2
    simp only [decide_eq_true_eq] at hp
    have hfe := findC_of_mem st.challenges e hnd (List.mem_filter.mp he).1
    rw [hEq] at hfe
    exact hcase e hfe hp
  have h1 : UntouchedAt st (getActiveChallenges st userId now).1 id := by
    refine ⟨?_, getActive_awardsFor st userId now id⟩
    rw [getActive_findC st userId now id hnd]
    cases hr : findC st.challenges id with
    | none => rfl
    | some c =>
      have hcond : ¬(c.userId = userId ∧ c.status = "active" ∧ c.endDate < now) := by
        intro hall
        exact hcase c hr ⟨hall.1, hall.2.1⟩
      simp [hcond]
  exact untouchedAt_trans h1
    (foldl_untouched (fun acc e h => checkStep_untouched _ _ now acc e id h) _ _ hno)

/-- Effect of one `checkStep` on the challenge it evaluates, given the current
stored record `r` under that id. -/
theorem checkStep_at_self (txs : List Transaction) (gs : List Goal) (now : Int)
    (acc : St) (e r : Challenge) (hfind : findC acc.challenges e.id = some r) :
    if isChallengeCompleted e (calculateProgress e txs gs now) now then
      findC (checkStep txs gs now acc e).challenges e.id =
        some { r with status := "completed", progress := { calculateProgress e txs gs now with completedAt := some now } } ∧
      awardsFor (checkStep txs gs now acc e) e.id = awardsFor acc e.id + 1
    else if isChallengeFailed e (calculateProgress e txs gs now) now then
      findC (checkStep txs gs now acc e).challenges e.id =
        some { r with status := "failed", progress := calculateProgress e txs gs now } ∧
      awardsFor (checkStep txs gs now acc e) e.id = awardsFor acc e.id
    else
      findC (checkStep txs gs now acc e).challenges e.id =
        some { r with progress := calculateProgress e txs gs now } ∧
      awardsFor (checkStep txs gs now acc e) e.id = awardsFor acc e.id := by
  unfold checkStep
  dsimp only
  split_ifs with h1 h2
  · unfold completeChallenge
    rw [hfind]
    dsimp only
    constructor
    · rw [findC_dbUpdate_self, hfind]
      rfl
    · simp [awardsFor, List.filter_append]
  · unfold failChallenge
    constructor
    · rw [findC_dbUpdate_self, hfind]
      rfl
    · rfl
  · unfold updateChallenge
    constructor
    · rw [findC_dbUpdate_self, hfind]
      rfl
    · rfl

/-- Effect of a batch pass on an active challenge of the evaluated user,
with stored record equal to the fetched copy `c`: the pass completes it (with
one award), fails it, or updates its progress (keeping the `expired` stamp
when strictly past `endDate`). -/
theorem checkProgress_at_active (st : St) (userId : String) (now : Int) (c : Challenge)
    (txs : List Transaction) (gs : List Goal)
    (hnd : IdsNodup st) (hfind : findC st.challenges c.id = some c)
    (hu : c.userId = userId) (ha : c.status = "active")
    (htxs : txs = st.transactions.filter (fun t => decide (t.userId = userId)))
    (hgs : gs = st.goals.filter (fun g => decide (g.userId = userId))) :
    if isChallengeCompleted c (calculateProgress c txs gs now) now then
      findC (checkProgress st userId now).challenges c.id =
        some { c with status := "completed", progress := { calculateProgress c txs gs now with completedAt := some now } } ∧
      awardsFor (checkProgress st userId now) c.id = awardsFor st c.id + 1
    else if isChallengeFailed c (calculateProgress c txs gs now) now then
      findC (checkProgress st userId now).challenges c.id =
        some { c with status := "failed", progress := calculateProgress c txs gs now } ∧
      awardsFor (checkProgress st userId now) c.id = awardsFor st c.id
    else
      findC (checkProgress st userId now).challenges c.id =
        some { c with status := (if c.endDate < now then "expired" else "active"), progress := calculateProgress c txs gs now } ∧
      awardsFor (checkProgress st userId now) c.id = awardsFor st c.id := by
  unfold checkProgress
  dsimp only
  rw [getActive_snd, getActive_transactions, getActive_goals, ← htxs, ← hgs]
  have hmem := (mem_of_findC _ _ _ hfind).1
  have hcf : c ∈ st.challenges.filter
      (fun x => decide (x.userId = userId ∧ x.status = "active")) :=
    List.mem_filter.mpr ⟨hmem, by simp [hu, ha]⟩
  obtain ⟨s, t, hst⟩ := List.append_of_mem hcf
  have hnd2 := fetched_ids_nodup st hnd
    (fun x => decide (x.userId = userId ∧ x.status = "active"))
  rw [hst] at hnd2
  obtain ⟨hs, ht⟩ := ids_ne_of_nodup_split s t c hnd2
  rw [hst, List.foldl_append, List.foldl_cons]
  have hGAaw := getActive_awardsFor st userId now c.id
  have hsU := foldl_untouched (fun acc e h => checkStep_untouched txs gs now acc e c.id h)
    s (getActiveChallenges st userId now).1 hs
  have htU := fun st' => foldl_untouched
    (fun acc e h => checkStep_untouched txs gs now acc e c.id h) t st' ht
  by_cases hend : c.endDate < now
  · have hGA : findC (getActiveChallenges st userId now).1.challenges c.id =
        some ({ c with status := "expired" } : Challenge) := by
      rw [getActive_findC st userId now c.id hnd, hfind]
      simp [hu, ha, hend]
    have hmid := checkStep_at_self txs gs now
      (s.foldl (checkStep txs gs now) (getActiveChallenges st userId now).1) c
      ({ c with status := "expired" } : Challenge) (hsU.1.trans hGA)
    split_ifs with h1 h2
    · rw [if_pos h1] at hmid
      refine ⟨(htU _).1.trans hmid.1, ?_⟩
      rw [(htU _).2, hmid.2, hsU.2, hGAaw]
    · rw [if_neg h1, if_pos h2] at hmid
      refine ⟨(htU _).1.trans hmid.1, ?_⟩
      rw [(htU _).2, hmid.2, hsU.2, hGAaw]
    · rw [if_neg h1, if_neg h2] at hmid
      refine ⟨(htU _).1.trans hmid.1, ?_⟩
      rw [(htU _).2, hmid.2, hsU.2, hGAaw]
  · have hGA : findC (getActiveChallenges st userId now).1.challenges c.id = some c := by
      rw [getActive_findC st userId now c.id hnd, hfind]
      simp [hend]
    have hmid := checkStep_at_self txs gs now
      (s.foldl (checkStep txs gs now) (getActiveChallenges st userId now).1) c c
      (hsU.1.trans hGA)
    split_ifs with h1 h2
    · rw [if_pos h1] at hmid
      refine ⟨(htU _).1.trans hmid.1, ?_⟩
      rw [(htU _).2, hmid.2, hsU.2, hGAaw]
    · rw [if_neg h1, if_pos h2] at hmid
      refine ⟨(htU _).1.trans hmid.1, ?_⟩
      rw [(htU _).2, hmid.2, hsU.2, hGAaw]
    · rw [if_neg h1, if_neg h2] at hmid
      constructor
      · rw [(htU _).1, hmid.1]
        simp [ha]
      · rw [(htU _).2, hmid.2, hsU.2, hGAaw]

/-! ### The incremental pass: effect on a fixed challenge id -/

/-- Every branch of the incremental switch that completes also updates. -/
theorem incrDecision_complete_update (e : Challenge) (tx : Transaction) (now : Int)
    (h : (incrDecision e tx now).2.2 = true) : (incrDecision e tx now).2.1 = true := by
  unfold incrDecision at h ⊢
  split_ifs at h ⊢
  all_goals try rfl
  all_goals try simp_all
  all_goals split <;> rfl

/-- The updated copy computed by the incremental switch carries status
`failed` or the status of the input copy (completion overwrites it later). -/
theorem incrDecision_status (e : Challenge) (tx : Transaction) (now : Int) :
    (incrDecision e tx now).1.status = "failed" ∨
      (incrDecision e tx now).1.status = e.status := by
  unfold incrDecision
  split_ifs
  all_goals try simp
  all_goals split <;> simp

/-- Effect of one incremental step on the challenge it evaluates, given the
current stored record `r` under that id. -/
theorem incrStep_at_self (tx : Transaction) (now : Int) (acc : St) (e r : Challenge)
    (hfind : findC acc.challenges e.id = some r) :
    if (incrDecision e tx now).2.2 then
      findC (incrStep tx now acc e).challenges e.id =
        some { r with status := "completed", progress := (incrDecision e tx now).1.progress } ∧
      awardsFor (incrStep tx now acc e) e.id = awardsFor acc e.id + 1
    else if (incrDecision e tx now).2.1 then
      findC (incrStep tx now acc e).challenges e.id =
        some { r with status := (incrDecision e tx now).1.status, progress := (incrDecision e tx now).1.progress } ∧
      awardsFor (incrStep tx now acc e) e.id = awardsFor acc e.id
    else
      findC (incrStep tx now acc e).challenges e.id = some r ∧
      awardsFor (incrStep tx now acc e) e.id = awardsFor acc e.id := by
  unfold incrStep updateChallengeProgressWithTransaction
  dsimp only
  by_cases hsc : (incrDecision e tx now).2.2 = true
  · have hsu := incrDecision_complete_update e tx now hsc
    rw [if_pos hsc]
    simp only [hsc, hsu, if_true, ite_true]
    constructor
    · rw [findC_dbUpdate_self, hfind]
      rfl
    · simp [awardsFor, List.filter_append]
  · rw [if_neg hsc]
    by_cases hsu : (incrDecision e tx now).2.1 = true
    · rw [if_pos hsu]
      simp only [hsc, hsu, if_true, ite_true, Bool.false_eq_true, ite_false, if_false]
      constructor
      · rw [findC_dbUpdate_self, hfind]
        rfl
      · rfl
    · rw [if_neg hsu]
      simp only [hsc, hsu, Bool.false_eq_true, ite_false, if_false]
      exact ⟨hfind, trivial⟩

/-! ### Generation: effect on the store -/

theorem dbInsert_nodup (cs : List Challenge) (c : Challenge)
    (h : (cs.map (fun x => x.id)).Nodup) :
    ((dbInsert cs c).map (fun x => x.id)).Nodup := by
  unfold dbInsert
  split
  · have heq : (cs.map (fun x => if x.id = c.id then c else x)).map (fun x => x.id) =
        cs.map (fun x => x.id) := by
      rw [List.map_map]
      apply List.map_congr_left
      intro x _
      by_cases hx : x.id = c.id
      · simp [hx]
      · simp [hx]
    rw [heq]
    exact h
  · rename_i hany
    have hnotin : c.id ∉ cs.map (fun x => x.id) := by
      intro hmem
      obtain ⟨x, hx, hxid⟩ := List.mem_map.mp hmem
      exact hany (List.any_eq_true.mpr ⟨x, hx, by simp [hxid]⟩)
    rw [List.map_append]
    simp only [List.map_cons, List.map_nil]
    rw [List.nodup_append]
    exact ⟨h, List.nodup_singleton _, by simpa [List.disjoint_singleton] using hnotin⟩

/-- Inserting generated drafts with fresh uuids touches neither the record
nor the awards at a foreign id, and preserves awards entirely. -/
theorem generate_untouched (st : St) (userId : String) (outcome : AIOutcome)
    (uuid : Nat → String) (now : Int) (id : String) (hu : ∀ i, uuid i ≠ id) :
    UntouchedAt st (generateChallenges st userId outcome uuid now).1 id := by
  unfold generateChallenges
  dsimp only
  have main : ∀ (l : List (Nat × Draft)) (acc : St),
      UntouchedAt acc
        (l.foldl (fun a d =>
          { a with challenges := dbInsert a.challenges (draftToChallenge (uuid d.1) userId now d.2) }) acc)
        id := by
    intro l
    induction l with
    | nil => intro acc; exact untouchedAt_refl acc id
    | cons d rest ih =>
      intro acc
      rw [List.foldl_cons]
      refine untouchedAt_trans ?_ (ih _)
      exact ⟨findC_dbInsert_ne _ _ _ (hu d.1), rfl⟩
  exact main _ st

theorem generate_nodup (st : St) (userId : String) (outcome : AIOutcome)
    (uuid : Nat → String) (now : Int) (hnd : IdsNodup st) :
    IdsNodup (generateChallenges st userId outcome uuid now).1 := by
  unfold generateChallenges
  dsimp only
  have main : ∀ (l : List (Nat × Draft)) (acc : St), IdsNodup acc →
      IdsNodup (l.foldl (fun a d =>
        { a with challenges := dbInsert a.challenges (draftToChallenge (uuid d.1) userId now d.2) }) acc) := by
    intro l
    induction l with
    | nil => intro acc h; exact h
    | cons d rest ih =>
      intro acc h
      rw [List.foldl_cons]
      exact ih _ (dbInsert_nodup _ _ h)
  exact main _ st hnd

theorem generate_transactions (st : St) (userId : String) (outcome : AIOutcome)
    (uuid : Nat → String) (now : Int) :
    (generateChallenges st userId outcome uuid now).1.transactions = st.transactions := by
  unfold generateChallenges
  dsimp only
  have main : ∀ (l : List (Nat × Draft)) (acc : St),
      (l.foldl (fun a d =>
        { a with challenges := dbInsert a.challenges (draftToChallenge (uuid d.1) userId now d.2) }) acc).transactions
        = acc.transactions := by
    intro l
    induction l with
    | nil => intro acc; rfl
    | cons d rest ih => intro acc; rw [List.foldl_cons, ih]
  exact main _ st

/-! ### Pass-level lemmas -/

theorem rewardInv_of_untouched {st st' : St} {id : String}
    (h : UntouchedAt st st' id) (hinv : RewardInv st id) : RewardInv st' id := by
  unfold RewardInv statusOf at hinv ⊢
  rw [h.1, h.2]
  exact hinv

theorem fetched_ids_ne (st : St) (userId : String) (now : Int) (id : String)
    (hnd : IdsNodup st)
    (hcase : ∀ c, findC st.challenges id = some c → ¬(c.userId = userId ∧ c.status = "active")) :
    ∀ e ∈ (getActiveChallenges st userId now).2, e.id ≠ id := by
  rw [getActive_snd]
  intro e he hEq
  have hp := (List.mem_filter.mp he).2
  simp only [decide_eq_true_eq] at hp
  have hfe := findC_of_mem st.challenges e hnd (List.mem_filter.mp he).1
  rw [hEq] at hfe
  exact hcase e hfe hp

theorem getActive_untouched (st : St) (userId : String) (now : Int) (id : String)
    (hnd : IdsNodup st)
    (hcase : ∀ c, findC st.challenges id = some c → ¬(c.userId = userId ∧ c.status = "active")) :
    UntouchedAt st (getActiveChallenges st userId now).1 id := by
  refine ⟨?_, getActive_awardsFor st userId now id⟩
  rw [getActive_findC st userId now id hnd]
  cases hr : findC st.challenges id with
  | none => rfl
  | some c =>
    have hcond : ¬(c.userId = userId ∧ c.status = "active" ∧ c.endDate < now) := by
      intro hall
      exact hcase c hr ⟨hall.1, hall.2.1⟩
    simp [hcond]

theorem getActive_nodup (st : St) (userId : String) (now : Int) (hnd : IdsNodup st) :
    IdsNodup (getActiveChallenges st userId now).1 := by
  unfold IdsNodup
  rw [getActive_map_id]
  exact hnd

/-- The expiry stamping of `getActiveChallenges` preserves the reward
invariant: it never produces a `completed` status and never awards. -/
theorem getActive_rewardInv (st : St) (userId : String) (now : Int) (id : String)
    (hnd : IdsNodup st) (hinv : RewardInv st id) :
    RewardInv (getActiveChallenges st userId now).1 id := by
  unfold RewardInv statusOf at hinv ⊢
  rw [getActive_awardsFor, getActive_findC st userId now id hnd]
  cases hr : findC st.challenges id with
  | none => simpa [hr] using hinv
  | some r =>
    rw [hr] at hinv
    by_cases hcond : r.userId = userId ∧ r.status = "active" ∧ r.endDate < now
    · have h1 : r.status = "active" := hcond.2.1
      have hL : awardsFor st id = 0 := by
        rw [hinv]
        simp [h1]
      rw [hL]
      simp [hcond.1, hcond.2.1, hcond.2.2]
    · simpa [hcond] using hinv

theorem incrFold_map_id (tx : Transaction) (now : Int) (L : List Challenge) (st : St) :
    (L.foldl (incrStep tx now) st).challenges.map (fun x => x.id) =
      st.challenges.map (fun x => x.id) :=
  @foldl_st_proj (incrStep tx now) _ (fun st => st.challenges.map (fun x => x.id))
    (fun acc e => incrStep_map_id tx now acc e) L st

theorem incrFold_nodup (tx : Transaction) (now : Int) (L : List Challenge) (st : St)
    (hnd : IdsNodup st) : IdsNodup (L.foldl (incrStep tx now) st) := by
  unfold IdsNodup
  rw [incrFold_map_id]
  exact hnd

/-- A batch pass preserves the reward invariant for every challenge id. -/
theorem checkProgress_rewardInv (st : St) (userId : String) (now : Int) (id : String)
    (hnd : IdsNodup st) (hinv : RewardInv st id) :
    RewardInv (checkProgress st userId now) id := by
  by_cases hob : ∀ c, findC st.challenges id = some c →
      ¬(c.userId = userId ∧ c.status = "active")
  · exact rewardInv_of_untouched (checkProgress_untouched st userId now id hnd hob) hinv
  · push_neg at hob
    obtain ⟨c, hfind, hu, ha⟩ := hob
    have hcid : c.id = id := (mem_of_findC _ _ _ hfind).2
    subst hcid
    have h0 : awardsFor st c.id = 0 := by
      unfold RewardInv statusOf at hinv
      rw [hfind] at hinv
      simpa [ha] using hinv
    have hmain := checkProgress_at_active st userId now c _ _ hnd hfind hu ha rfl rfl
    split_ifs at hmain with h1 h2
    · unfold RewardInv statusOf
      rw [hmain.1, hmain.2, h0]
      simp
    · unfold RewardInv statusOf
      rw [hmain.1, hmain.2, h0]
      simp
    · unfold RewardInv statusOf
      rw [hmain.1, hmain.2, h0]
      simp
    · unfold RewardInv statusOf
      rw [hmain.1, hmain.2, h0]
      simp

/-- Effect of the incremental loop on the challenge under evaluation: either
it is completed with exactly one new award, or its status is one of `failed`,
the fetched copy's status, or the stored record's status, with no award. -/
theorem incrFold_at_active (st1 : St) (act : List Challenge) (tx : Transaction)
    (now : Int) (c r1 : Challenge) (hfind1 : findC st1.challenges c.id = some r1)
    (hsplit : ∃ s t, act = s ++ c :: t ∧ (∀ e ∈ s, e.id ≠ c.id) ∧ (∀ e ∈ t, e.id ≠ c.id)) :
    ∃ r2, findC (act.foldl (incrStep tx now) st1).challenges c.id = some r2 ∧
      ((r2.status = "completed" ∧
          awardsFor (act.foldl (incrStep tx now) st1) c.id = awardsFor st1 c.id + 1) ∨
       ((r2.status = "failed" ∨ r2.status = c.status ∨ r2.status = r1.status) ∧
          awardsFor (act.foldl (incrStep tx now) st1) c.id = awardsFor st1 c.id)) := by
  obtain ⟨s, t, hst, hs, ht⟩ := hsplit
  rw [hst, List.foldl_append, List.foldl_cons]
  have hsU := foldl_untouched (fun acc e h => incrStep_untouched tx now acc e c.id h) s st1 hs
  have htU := fun st' => foldl_untouched
    (fun acc e h => incrStep_untouched tx now acc e c.id h) t st' ht
  have hmid := incrStep_at_self tx now (s.foldl (incrStep tx now) st1) c r1
    (hsU.1.trans hfind1)
  split_ifs at hmid with hsc hsu
  · refine ⟨_, (htU _).1.trans hmid.1, Or.inl ⟨rfl, ?_⟩⟩
    rw [(htU _).2, hmid.2, hsU.2]
  · refine ⟨_, (htU _).1.trans hmid.1, Or.inr ⟨?_, ?_⟩⟩
    · rcases incrDecision_status c tx now with h | h
      · left
        exact h
      · right
        left
        exact h
    · rw [(htU _).2, hmid.2, hsU.2]
  · refine ⟨_, (htU _).1.trans hmid.1, Or.inr ⟨Or.inr (Or.inr rfl), ?_⟩⟩
    rw [(htU _).2, hmid.2, hsU.2]

theorem updateData_nodup (st : St) (userId : String) (now : Int) (outcome : AIOutcome)
    (uuid : Nat → String) (hnd : IdsNodup st) :
    IdsNodup (updateChallengesWithNewData st userId now outcome uuid).1 := by
  unfold updateChallengesWithNewData
  dsimp only
  rw [getActive_transactions]
  cases hl : latestTransaction (st.transactions.filter (fun t => decide (t.userId = userId))) with
  | none => exact getActive_nodup st userId now hnd
  | some latest =>
    have h2 : IdsNodup ((getActiveChallenges st userId now).2.foldl (incrStep latest now)
        (getActiveChallenges st userId now).1) :=
      incrFold_nodup latest now _ _ (getActive_nodup st userId now hnd)
    have h3 := getActive_nodup _ userId now h2
    dsimp only
    split_ifs
    · exact generate_nodup _ userId outcome uuid now h3
    · exact h3

/-- A record that is not an active challenge of the evaluated user is
untouched by an incremental pass whose fresh uuids avoid its id. -/
theorem updateData_untouched (st : St) (userId : String) (now : Int) (outcome : AIOutcome)
    (uuid : Nat → String) (id : String) (hnd : IdsNodup st) (huu : ∀ i, uuid i ≠ id)
    (hcase : ∀ c, findC st.challenges id = some c → ¬(c.userId = userId ∧ c.status = "active")) :
    UntouchedAt st (updateChallengesWithNewData st userId now outcome uuid).1 id := by
  unfold updateChallengesWithNewData
  dsimp only
  rw [getActive_transactions]
  cases hl : latestTransaction (st.transactions.filter (fun t => decide (t.userId = userId))) with
  | none => exact getActive_untouched st userId now id hnd hcase
  | some latest =>
    have h1 := getActive_untouched st userId now id hnd hcase
    have hno := fetched_ids_ne st userId now id hnd hcase
    have h2 := foldl_untouched (fun acc e h => incrStep_untouched latest now acc e id h)
      (getActiveChallenges st userId now).2 (getActiveChallenges st userId now).1 hno
    have h12 := untouchedAt_trans h1 h2
    have hndMid : IdsNodup ((getActiveChallenges st userId now).2.foldl (incrStep latest now)
        (getActiveChallenges st userId now).1) :=
      incrFold_nodup latest now _ _ (getActive_nodup st userId now hnd)
    have hcase2 : ∀ c, findC ((getActiveChallenges st userId now).2.foldl (incrStep latest now)
        (getActiveChallenges st userId now).1).challenges id = some c →
        ¬(c.userId = userId ∧ c.status = "active") := by
      intro c' hc'
      rw [h12.1] at hc'
      exact hcase c' hc'
    have h3 := getActive_untouched _ userId now id hndMid hcase2
    have h123 := untouchedAt_trans h12 h3
    dsimp only
    split_ifs
    · exact untouchedAt_trans h123 (generate_untouched _ userId outcome uuid now id huu)
    · exact h123

/-- An incremental pass preserves the reward invariant for every challenge
id its fresh uuids avoid. -/
theorem updateData_rewardInv (st : St) (userId : String) (now : Int) (outcome : AIOutcome)
    (uuid : Nat → String) (id : String) (hnd : IdsNodup st) (huu : ∀ i, uuid i ≠ id)
    (hinv : RewardInv st id) :
    RewardInv (updateChallengesWithNewData st userId now outcome uuid).1 id := by
  by_cases hob : ∀ c, findC st.challenges id = some c →
      ¬(c.userId = userId ∧ c.status = "active")
  · exact rewardInv_of_untouched
      (updateData_untouched st userId now outcome uuid id hnd huu hob) hinv
  · push_neg at hob
    obtain ⟨c, hfind, hu, ha⟩ := hob
    have hcid := (mem_of_findC _ _ _ hfind).2
    subst hcid
    have h0 : awardsFor st c.id = 0 := by
      unfold RewardInv statusOf at hinv
      rw [hfind] at hinv
      simpa [ha] using hinv
    unfold updateChallengesWithNewData
    dsimp only
    rw [getActive_transactions]
    cases hl : latestTransaction (st.transactions.filter (fun t => decide (t.userId = userId))) with
    | none => exact getActive_rewardInv st userId now c.id hnd hinv
    | some latest =>
      have hGA1aw := getActive_awardsFor st userId now c.id
      have hGAfind := getActive_findC st userId now c.id hnd
      rw [hfind] at hGAfind
      simp only [Option.map_some'] at hGAfind
      have hr1status : ((if c.userId = userId ∧ c.status = "active" ∧ c.endDate < now
          then ({ c with status := "expired" } : Challenge) else c)).status ≠ "completed" := by
        split_ifs
        · simp
        · rw [ha]
          decide
      have hcf : c ∈ (getActiveChallenges st userId now).2 := by
        rw [getActive_snd]
        exact List.mem_filter.mpr ⟨(mem_of_findC _ _ _ hfind).1, by simp [hu, ha]⟩
      have hsplit : ∃ s t, (getActiveChallenges st userId now).2 = s ++ c :: t ∧
          (∀ e ∈ s, e.id ≠ c.id) ∧ (∀ e ∈ t, e.id ≠ c.id) := by
        obtain ⟨s, t, hst⟩ := List.append_of_mem hcf
        have hnd2 : (((getActiveChallenges st userId now).2).map (fun x => x.id)).Nodup := by
          rw [getActive_snd]
          exact fetched_ids_nodup st hnd _
        rw [hst] at hnd2
        obtain ⟨hs, ht⟩ := ids_ne_of_nodup_split s t c hnd2
        exact ⟨s, t, hst, hs, ht⟩
      obtain ⟨r2, hfind2, hcases⟩ := incrFold_at_active
        (getActiveChallenges st userId now).1 (getActiveChallenges st userId now).2
        latest now c _ hGAfind hsplit
      have hinvMid : RewardInv ((getActiveChallenges st userId now).2.foldl
          (incrStep latest now) (getActiveChallenges st userId now).1) c.id := by
        unfold RewardInv statusOf
        rw [hfind2]
        rcases hcases with ⟨hst2, haw⟩ | ⟨hst2, haw⟩
        · rw [haw, hGA1aw, h0]
          simp [hst2]
        · rw [haw, hGA1aw, h0]
          have hne : r2.status ≠ "completed" := by
            rcases hst2 with h | h | h
            · rw [h]
              decide
            · rw [h, ha]
              decide
            · rw [h]
              exact hr1status
          simp [hne]
      have hndMid : IdsNodup ((getActiveChallenges st userId now).2.foldl (incrStep latest now)
          (getActiveChallenges st userId now).1) :=
        incrFold_nodup latest now _ _ (getActive_nodup st userId now hnd)
      have hinv3 := getActive_rewardInv _ userId now c.id hndMid hinvMid
      dsimp only
      split_ifs
      · exact rewardInv_of_untouched
          (generate_untouched _ userId outcome uuid now c.id huu) hinv3
      · exact hinv3

theorem runPass_rewardInv (userId : String) (st : St) (p : Pass) (id : String)
    (hnd : IdsNodup st) (hav : PassAvoids p id) (hinv : RewardInv st id) :
    RewardInv (runPass userId st p) id := by
  cases p with
  | batch now => exact checkProgress_rewardInv st userId now id hnd hinv
  | incr now outcome uuid => exact updateData_rewardInv st userId now outcome uuid id hnd hav hinv

theorem runPass_nodup (userId : String) (st : St) (p : Pass) (hnd : IdsNodup st) :
    IdsNodup (runPass userId st p) := by
  cases p with
  | batch now =>
    unfold IdsNodup runPass
    rw [checkProgress_map_id]
    exact hnd
  | incr now outcome uuid => exact updateData_nodup st userId now outcome uuid hnd

theorem runPass_untouched (userId : String) (st : St) (p : Pass) (id : String)
    (hnd : IdsNodup st) (hav : PassAvoids p id)
    (hcase : ∀ c, findC st.challenges id = some c → ¬(c.userId = userId ∧ c.status = "active")) :
    UntouchedAt st (runPass userId st p) id := by
  cases p with
  | batch now => exact checkProgress_untouched st userId now id hnd hcase
  | incr now outcome uuid => exact updateData_untouched st userId now outcome uuid id hnd hav hcase

theorem runPasses_rewardInv (userId : String) (passes : List Pass) (st : St) (id : String)
    (hnd : IdsNodup st) (hav : ∀ p ∈ passes, PassAvoids p id) (hinv : RewardInv st id) :
    RewardInv (runPasses userId passes st) id ∧ IdsNodup (runPasses userId passes st) := by
  induction passes generalizing st with
  | nil => exact ⟨hinv, hnd⟩
  | cons p rest ih =>
    unfold runPasses
    rw [List.foldl_cons]
    exact ih (runPass userId st p)
      (runPass_nodup userId st p hnd)
      (fun q hq => hav q (List.mem_cons_of_mem _ hq))
      (runPass_rewardInv userId st p id hnd (hav p (List.mem_cons_self _ _)) hinv)

theorem runPasses_terminal (userId : String) (passes : List Pass) (st : St) (id : String)
    (c : Challenge) (hnd : IdsNodup st) (hav : ∀ p ∈ passes, PassAvoids p id)
    (hfind : findC st.challenges id = some c) (hterm : c.status ≠ "active") :
    findC (runPasses userId passes st).challenges id = some c ∧
      awardsFor (runPasses userId passes st) id = awardsFor st id := by
  induction passes generalizing st with
  | nil => exact ⟨hfind, rfl⟩
  | cons p rest ih =>
    unfold runPasses
    rw [List.foldl_cons]
    have hcase : ∀ c', findC st.challenges id = some c' →
        ¬(c'.userId = userId ∧ c'.status = "active") := by
      intro c' hc' hp
      rw [hfind] at hc'
      have := Option.some_inj.mp hc'
      rw [← this] at hp
      exact hterm hp.2
    have hU := runPass_untouched userId st p id hnd (hav p (List.mem_cons_self _ _)) hcase
    have hrec := ih (runPass userId st p) (runPass_nodup userId st p hnd)
      (fun q hq => hav q (List.mem_cons_of_mem _ hq)) (hU.1.trans hfind)
    exact ⟨hrec.1, hrec.2.trans hU.2⟩

/-- Claim C2. Reward issuance is exactly-once across any sequence of
evaluation passes (batch and incremental, in any order and at any instants):
starting from a well-formed store (distinct ids) with a given challenge
`active` and no award yet issued for it, after any pass sequence the number
of awards carrying its id is 1 if its stored status is `completed` and 0
otherwise — so a challenge that ever reaches `completed` is awarded exactly
once; and a challenge whose stored status is already `completed` is never
selected again: its record and its award count are unchanged by any further
passes. -/
theorem c2_exactly_once_reward (userId : String) (passes : List Pass) (st : St)
    (id : String) (hnd : IdsNodup st) (hav : ∀ p ∈ passes, PassAvoids p id) :
    (statusOf st id = some "active" → awardsFor st id = 0 →
      awardsFor (runPasses userId passes st) id =
        (if statusOf (runPasses userId passes st) id = some "completed" then 1 else 0)) ∧
    (∀ c, findC st.challenges id = some c → c.status = "completed" →
      findC (runPasses userId passes st).challenges id = some c ∧
      awardsFor (runPasses userId passes st) id = awardsFor st id) := by
  constructor
  · intro hact haw
    have hinv : RewardInv st id := by
      unfold RewardInv
      rw [haw, hact]
      simp
    exact (runPasses_rewardInv userId passes st id hnd hav hinv).1
  · intro c hfind hcomp
    exact runPasses_terminal userId passes st id c hnd hav hfind
      (by rw [hcomp]; decide)

/-- Witness for `c2_exactly_once_reward`: one batch pass completes the
savings challenge and issues its single award. -/
theorem c2_exactly_once_reward_witness :
    statusOf stSav "sav1" = some "active" ∧ awardsFor stSav "sav1" = 0 ∧
    statusOf (runPasses "u" [Pass.batch 1000] stSav) "sav1" = some "completed" ∧
    awardsFor (runPasses "u" [Pass.batch 1000] stSav) "sav1" =
      (if statusOf (runPasses "u" [Pass.batch 1000] stSav) "sav1" = some "completed"
        then 1 else 0) :=
  ⟨by decide, by decide, by decide,
   (c2_exactly_once_reward "u" [Pass.batch 1000] stSav "sav1" (by unfold IdsNodup; decide)
      (by intro p hp; rw [List.mem_singleton.mp hp]; trivial)).1 (by decide) (by decide)⟩

/-- Claim C3, amended. When the evaluation instant is at or after `endDate`,
a still-active challenge does not end `EXPIRED`: `getActiveChallenges` stamps
it `expired` in the store (only when strictly past `endDate`) but still
returns the fetched copy, and `checkProgress` immediately overwrites the
stamp — the challenge ends `completed` (with its reward issued) when the
completion predicate holds on the recomputed progress, and `failed`
otherwise; `expired` persists only when `getActiveChallenges` runs without a
subsequent evaluation. -/
theorem c3_amended (st : St) (userId : String) (now : Int) (c : Challenge)
    (hnd : IdsNodup st) (hfind : findC st.challenges c.id = some c)
    (hu : c.userId = userId) (ha : c.status = "active") (hend : c.endDate ≤ now) :
    statusOf (checkProgress st userId now) c.id =
      some (if isChallengeCompleted c (calculateProgress c
          (st.transactions.filter (fun t => decide (t.userId = userId)))
          (st.goals.filter (fun g => decide (g.userId = userId))) now) now
        then "completed" else "failed") ∧
    awardsFor (checkProgress st userId now) c.id =
      awardsFor st c.id + (if isChallengeCompleted c (calculateProgress c
          (st.transactions.filter (fun t => decide (t.userId = userId)))
          (st.goals.filter (fun g => decide (g.userId = userId))) now) now
        then 1 else 0) := by
  have hmain := checkProgress_at_active st userId now c _ _ hnd hfind hu ha rfl rfl
  by_cases h1 : isChallengeCompleted c (calculateProgress c
      (st.transactions.filter (fun t => decide (t.userId = userId)))
      (st.goals.filter (fun g => decide (g.userId = userId))) now) now = true
  · rw [if_pos h1] at hmain
    constructor
    · unfold statusOf
      rw [hmain.1, if_pos h1]
      rfl
    · rw [hmain.2, if_pos h1]
  · have h2 : isChallengeFailed c (calculateProgress c
        (st.transactions.filter (fun t => decide (t.userId = userId)))
        (st.goals.filter (fun g => decide (g.userId = userId))) now) now = true := by
      unfold isChallengeFailed
      rw [if_pos hend]
      cases hX : isChallengeCompleted c (calculateProgress c
          (st.transactions.filter (fun t => decide (t.userId = userId)))
          (st.goals.filter (fun g => decide (g.userId = userId))) now) now with
      | true => exact absurd hX h1
      | false => rfl
    rw [if_neg h1, if_pos h2] at hmain
    constructor
    · unfold statusOf
      rw [hmain.1, if_neg h1]
      rfl
    · rw [hmain.2, if_neg h1]
      simp

/-- Witness for `c3_amended`: Scenario C's category ban, one second past its
end date, ends `completed` (the completion branch), not `expired`. -/
theorem c3_amended_witness :
    statusOf (checkProgress stBan "u" 604801000) chBan.id =
      some (if isChallengeCompleted chBan (calculateProgress chBan
          (stBan.transactions.filter (fun t => decide (t.userId = "u")))
          (stBan.goals.filter (fun g => decide (g.userId = "u"))) 604801000) 604801000
        then "completed" else "failed") :=
  (c3_amended stBan "u" 604801000 chBan (by unfold IdsNodup; decide) (by decide) (by decide)
    (by decide) (by decide)).1

/-- Claim C4, amended. A challenge whose stored status is terminal
(`completed`, `failed`, or `expired`) at the start of a pass sequence is
never selected by any evaluation pass, so its record is bit-for-bit
unchanged across any number of batch and incremental passes; the generic
`updateChallenge` operation, however, has no terminality guard (see the
counterexample), so only direct updates can move a challenge out of a
terminal status. -/
theorem c4_amended (userId : String) (passes : List Pass) (st : St) (id : String)
    (c : Challenge) (hnd : IdsNodup st) (hav : ∀ p ∈ passes, PassAvoids p id)
    (hfind : findC st.challenges id = some c) (hterm : c.status ≠ "active") :
    findC (runPasses userId passes st).challenges id = some c :=
  (runPasses_terminal userId passes st id c hnd hav hfind hterm).1

/-- Witness for `c4_amended`: the completed challenge of `stDone` is
unchanged by a batch pass followed by an incremental pass. -/
theorem c4_amended_witness :
    findC (runPasses "u" [Pass.batch 900,
        Pass.incr 950 (.parsed []) (fun _ => "fresh")] stDone).challenges
      "done1" = some chDone :=
  c4_amended "u" [Pass.batch 900, Pass.incr 950 (.parsed []) (fun _ => "fresh")] stDone
    "done1" chDone
    (by unfold IdsNodup; decide)
    (by
      intro p hp
      rcases List.mem_cons.mp hp with rfl | hp'
      · trivial
      · rw [List.mem_singleton.mp hp']
        exact fun i => (by decide : ("fresh" : String) ≠ "done1"))
    (by decide) (by decide)

/-! ### Population maintenance (claim C9) -/

theorem dbInsert_append_of_fresh (cs : List Challenge) (c : Challenge)
    (h : ∀ x ∈ cs, x.id ≠ c.id) : dbInsert cs c = cs ++ [c] := by
  unfold dbInsert
  rw [if_neg]
  intro hany
  obtain ⟨x, hx, hxe⟩ := List.any_eq_true.mp hany
  exact h x hx (by simpa using hxe)

theorem numActive_dbInsert_ge (cs : List Challenge) (c : Challenge) (userId : String)
    (hact : c.status = "active") (huid : c.userId = userId) :
    (cs.filter (fun x => decide (x.userId = userId ∧ x.status = "active"))).length ≤
      ((dbInsert cs c).filter (fun x => decide (x.userId = userId ∧ x.status = "active"))).length := by
  unfold dbInsert
  split
  · rw [← List.countP_eq_length_filter, ← List.countP_eq_length_filter, List.countP_map]
    apply List.countP_mono_left
    intro x _ hx
    simp only [Function.comp]
    by_cases hid : x.id = c.id
    · simp [hid, hact, huid]
    · simpa [hid] using hx
  · rw [List.filter_append, List.length_append]
    exact Nat.le_add_right _ _

/-- The insertion fold of `generateChallenges`, with fresh and pairwise
distinct uuids, grows the store and the user's active count by exactly the
number of drafts. -/
theorem genfold_counts (uuid : Nat → String) (userId : String) (now : Int)
    (hinj : Function.Injective uuid) :
    ∀ (l : List (Nat × Draft)) (st : St),
      (∀ p ∈ l, ∀ c ∈ st.challenges, uuid p.1 ≠ c.id) →
      ((l.map Prod.fst).Nodup) →
      (l.foldl (fun a d =>
          { a with challenges := dbInsert a.challenges (draftToChallenge (uuid d.1) userId now d.2) }) st).challenges.length
          = st.challenges.length + l.length ∧
      numActiveFor (l.foldl (fun a d =>
          { a with challenges := dbInsert a.challenges (draftToChallenge (uuid d.1) userId now d.2) }) st) userId
          = numActiveFor st userId + l.length := by
  intro l
  induction l with
  | nil => intro st _ _; exact ⟨rfl, rfl⟩
  | cons p rest ih =>
    intro st hfresh hnd
    have hins : dbInsert st.challenges (draftToChallenge (uuid p.1) userId now p.2) =
        st.challenges ++ [draftToChallenge (uuid p.1) userId now p.2] :=
      dbInsert_append_of_fresh _ _
        (fun x hx hEq => hfresh p (List.mem_cons_self _ _) x hx hEq.symm)
    have hfresh' : ∀ q ∈ rest, ∀ c ∈ st.challenges ++ [draftToChallenge (uuid p.1) userId now p.2],
        uuid q.1 ≠ c.id := by
      intro q hq c hc
      rcases List.mem_append.mp hc with hc' | hc'
      · exact hfresh q (List.mem_cons_of_mem _ hq) c hc'
      · rw [List.mem_singleton.mp hc']
        intro hEq
        have hq1 : q.1 = p.1 := hinj hEq
        have : p.1 ∈ rest.map Prod.fst := by
          rw [← hq1]
          exact List.mem_map_of_mem _ hq
        exact (List.nodup_cons.mp (by simpa using hnd)).1 this
    have hnd' : ((rest.map Prod.fst)).Nodup := (List.nodup_cons.mp (by simpa using hnd)).2
    rw [List.foldl_cons]
    have ihr := ih { st with challenges := st.challenges ++ [draftToChallenge (uuid p.1) userId now p.2] }
      (by simpa using hfresh') hnd'
    constructor
    · rw [show ({ st with challenges := dbInsert st.challenges (draftToChallenge (uuid p.1) userId now p.2) } : St)
          = { st with challenges := st.challenges ++ [draftToChallenge (uuid p.1) userId now p.2] } from by rw [hins]]
      rw [ihr.1]
      simp only [List.length_append, List.length_cons, List.length_nil]
      omega
    · rw [show ({ st with challenges := dbInsert st.challenges (draftToChallenge (uuid p.1) userId now p.2) } : St)
          = { st with challenges := st.challenges ++ [draftToChallenge (uuid p.1) userId now p.2] } from by rw [hins]]
      rw [ihr.2]
      unfold numActiveFor
      simp only [List.filter_append, List.length_append]
      have : (([draftToChallenge (uuid p.1) userId now p.2]).filter
          (fun x => decide (x.userId = userId ∧ x.status = "active"))).length = 1 := by
        simp [draftToChallenge]
      rw [this]
      simp only [List.length_cons]
      omega

/-- The insertion fold never decreases the user's active count, regardless of
uuid collisions: every inserted record is an active record of the user. -/
theorem genfold_mono (uuid : Nat → String) (userId : String) (now : Int) :
    ∀ (l : List (Nat × Draft)) (st : St),
      numActiveFor st userId ≤
        numActiveFor (l.foldl (fun a d =>
          { a with challenges := dbInsert a.challenges (draftToChallenge (uuid d.1) userId now d.2) }) st) userId := by
  intro l
  induction l with
  | nil => intro st; exact le_rfl
  | cons p rest ih =>
    intro st
    rw [List.foldl_cons]
    refine le_trans ?_ (ih _)
    exact numActive_dbInsert_ge st.challenges _ userId rfl rfl

/-- Claim C9, amended. The maintenance step asks the generator for
`3 − activeCount` drafts, but the number persisted equals the number of
drafts parsed from the content model's response (3 when the fallback fires),
not the requested count: with fresh, distinct uuids, `generateChallenges`
persists exactly one `active` challenge of the user per parsed draft, growing
the store and the active count by that many; and regardless of uuids the
step never decreases the user's active count. -/
theorem c9_amended (st : St) (userId : String) (outcome : AIOutcome)
    (uuid : Nat → String) (now : Int)
    (hfresh : ∀ i, ∀ c ∈ st.challenges, uuid i ≠ c.id)
    (hinj : Function.Injective uuid) :
    (generateChallenges st userId outcome uuid now).1.challenges.length =
      st.challenges.length + (parseAIChallenges outcome now).length ∧
    (∀ c ∈ (generateChallenges st userId outcome uuid now).2,
      c.status = "active" ∧ c.userId = userId) ∧
    (generateChallenges st userId outcome uuid now).2.length =
      (parseAIChallenges outcome now).length ∧
    numActiveFor (generateChallenges st userId outcome uuid now).1 userId =
      numActiveFor st userId + (parseAIChallenges outcome now).length ∧
    (∀ (st' : St), numActiveFor st' userId ≤
      numActiveFor (generateChallenges st' userId outcome uuid now).1 userId) := by
  have hnd : (((parseAIChallenges outcome now).enum.map Prod.fst)).Nodup := by
    rw [List.enum_map_fst]
    exact List.nodup_range _
  have hcounts := genfold_counts uuid userId now hinj (parseAIChallenges outcome now).enum st
    (fun p _ c hc => hfresh p.1 c hc) hnd
  refine ⟨?_, ?_, ?_, ?_, ?_⟩
  · unfold generateChallenges
    dsimp only
    rw [hcounts.1, List.enum_length]
  · intro c hc
    unfold generateChallenges at hc
    dsimp only at hc
    obtain ⟨d, _, hd⟩ := List.mem_map.mp hc
    rw [← hd]
    exact ⟨rfl, rfl⟩
  · unfold generateChallenges
    dsimp only
    rw [List.length_map, List.enum_length]
  · unfold generateChallenges
    dsimp only
    rw [hcounts.2, List.enum_length]
  · intro st'
    unfold generateChallenges
    dsimp only
    exact genfold_mono uuid userId now _ st'

theorem uuidRep_inj : Function.Injective uuidRep := by
  intro a b h
  have hdata : List.replicate (a + 1) 'g' = List.replicate (b + 1) 'g' :=
    congrArg String.data h
  have hlen := congrArg List.length hdata
  simpa using hlen

theorem uuidRep_ne_ban1 (i : Nat) : uuidRep i ≠ "ban1" := by
  intro h
  have hdata : List.replicate (i + 1) 'g' = "ban1".data := congrArg String.data h
  rw [List.replicate_succ] at hdata
  have hhead := congrArg List.head? hdata
  simp only [List.head?_cons] at hhead
  simp at hhead

/-- Witness for `c9_amended` at the population fixture: the fallback's three
drafts are all persisted, taking the store from 1 to 4 challenges and the
active count from 1 to 4. -/
theorem c9_amended_witness :
    (generateChallenges stPop "u" .noJsonArray uuidRep 2000).1.challenges.length =
      stPop.challenges.length + (parseAIChallenges .noJsonArray 2000).length ∧
    numActiveFor (generateChallenges stPop "u" .noJsonArray uuidRep 2000).1 "u" =
      numActiveFor stPop "u" + (parseAIChallenges .noJsonArray 2000).length := by
  have h := c9_amended stPop "u" .noJsonArray uuidRep 2000
    (by
      intro i c hc
      have : c = chBan := by
        have := List.mem_cons.mp hc
        simpa using this
      rw [this]
      exact uuidRep_ne_ban1 i)
    uuidRep_inj
  exact ⟨h.1, h.2.2.2.1⟩

end FinBack
